import Mathlib

/-
Verification development for the talent-manager matching engine
(backend/app/ai/recommend_client_for_project_need).

The Python modules are shallowly embedded: pure functions become Lean
functions, SQL queries become list-processing functions over explicit row
types (with three-valued SQL boolean logic where NULL semantics matter),
and the stateful pipelines become explicit state-passing functions.
Database ids are strings, numeric columns are rationals, embedding vector
components are reals.
-/

namespace TalentPortal

/-! ## Three-valued SQL boolean logic

PostgreSQL WHERE clauses use Kleene three-valued logic: a comparison with
NULL yields `unk`, and a row is kept only when the whole clause evaluates
to `tt`.  `candidates.py` binds the Python value `None` for the
`writer_band` parameter, so this matters for the eligibility filter. -/

inductive SQLB : Type
  | tt
  | ff
  | unk
deriving DecidableEq, Repr

namespace SQLB

def and : SQLB → SQLB → SQLB
  | ff, _ => ff
  | _, ff => ff
  | tt, tt => tt
  | _, _ => unk

def or : SQLB → SQLB → SQLB
  | tt, _ => tt
  | _, tt => tt
  | ff, ff => ff
  | _, _ => unk

def not : SQLB → SQLB
  | tt => ff
  | ff => tt
  | unk => unk

def ofBool (b : Bool) : SQLB := if b then tt else ff

/-- A SQL WHERE clause keeps a row only when the condition is `tt`
(`unk` behaves like `ff` for filtering). -/
def isTrue : SQLB → Bool
  | tt => true
  | _ => false

@[simp] theorem and_eq_tt_iff (a b : SQLB) : a.and b = tt ↔ a = tt ∧ b = tt := by
  cases a <;> cases b <;> simp [SQLB.and]

@[simp] theorem or_eq_tt_iff (a b : SQLB) : a.or b = tt ↔ a = tt ∨ b = tt := by
  cases a <;> cases b <;> simp [SQLB.or]

@[simp] theorem isTrue_iff (a : SQLB) : a.isTrue = true ↔ a = tt := by
  cases a <;> simp [SQLB.isTrue]

end SQLB

/-- SQL equality between a nullable string value and a constant:
NULL compared with anything is `unk`. -/
def sqlEqStr : Option String → String → SQLB
  | none, _ => SQLB.unk
  | some a, b => SQLB.ofBool (a = b)

/-- SQL inequality (`!=`) between a nullable string value and a constant. -/
def sqlNeStr : Option String → String → SQLB
  | none, _ => SQLB.unk
  | some a, b => SQLB.ofBool (a ≠ b)

/-- SQL `x IS TRUE` for a nullable boolean column: never NULL, true exactly
when the stored value is TRUE. -/
def sqlIsTrue (x : Option Bool) : SQLB := SQLB.ofBool (x = some true)

/-- SQL `x >= n` for a nullable numeric column. -/
def sqlGe : Option ℚ → ℚ → SQLB
  | none, _ => SQLB.unk
  | some v, n => SQLB.ofBool (n ≤ v)

/-- SQL `x <= n` for a nullable numeric column. -/
def sqlLe : Option ℚ → ℚ → SQLB
  | none, _ => SQLB.unk
  | some v, n => SQLB.ofBool (v ≤ n)

/-! ## Qualification parser (`quals.py`) -/

/-- Python `str.startswith`, over the character list (kernel-evaluable,
unlike the byte-position core primitive). -/
def strStartsWith (s p : String) : Bool := List.isPrefixOf p.data s.data

/-- Python `str.endswith`. -/
def strEndsWith (s p : String) : Bool := List.isSuffixOf p.data s.data

/-- Python `str.strip()`: whitespace removed from both ends. -/
def strTrim (s : String) : String :=
  ⟨((s.data.dropWhile Char.isWhitespace).reverse.dropWhile Char.isWhitespace).reverse⟩

/-- Structured predicate produced by `parse_qualifications`. -/
structure Quals where
  is_writer : Bool
  is_director : Bool
  require_feature : Bool
  writer_band : Option String
deriving DecidableEq, Repr

/-- Embedding of `parse_qualifications` (quals.py).  The Python function
first replaces a `None` argument by the empty string and strips
whitespace. -/
def parse_qualifications (q : Option String) : Quals :=
  let s := strTrim (q.getD "")
  let is_writer := strStartsWith s "Writer"
  let is_director := strStartsWith s "Director"
  let require_feature := strEndsWith s "(Has Directed Feature)"
  let band : Option String :=
    if is_writer then
      if strEndsWith s "(Upper)" then some "upper"
      else if strEndsWith s "(Mid - Upper)" then some "mid_upper"
      else if strEndsWith s "(Mid)" then some "mid"
      else if strEndsWith s "(Low - Mid)" then some "lower_mid"
      else if strEndsWith s "(Low)" then some "lower"
      else none
    else none
  { is_writer := is_writer, is_director := is_director,
    require_feature := require_feature, writer_band := band }

/-! ## Creatives and the eligibility filter (`candidates.py`) -/

/-- Row of the `creatives` table, restricted to the columns the engine
reads.  Nullable columns are `Option`. -/
structure Creative where
  id : String
  name : String
  client_status : Option String
  availability : Option String
  tv_acceptable : Option Bool
  is_director : Option Bool
  is_writer : Option Bool
  writer_level : Option ℚ
  has_directed_feature : Option Bool
deriving DecidableEq, Repr

/-- The writer-band disjunction of the `candidates.py` SQL: the
`:writer_band` parameter is nullable (Python `None` for an unmatched
label), so each `=` comparison is three-valued. -/
def bandCond (band : Option String) (lvl : Option ℚ) : SQLB :=
  (((sqlEqStr band "upper").and (sqlGe lvl 6)).or
   (((sqlEqStr band "mid_upper").and (sqlGe lvl 3)).or
    (((sqlEqStr band "mid").and ((sqlGe lvl 3).and (sqlLe lvl 6))).or
     (((sqlEqStr band "lower_mid").and (sqlLe lvl 6)).or
      ((sqlEqStr band "lower").and (sqlLe lvl 4))))))

/-- WHERE clause of the candidate query in `candidates.py`, evaluated for
one creative row; `mt` is the parent project's (nullable) media type. -/
def candidateCond (mt : Option String) (c : Creative) (q : Quals) : SQLB :=
  ((sqlEqStr c.client_status "client").and
   (((sqlNeStr mt "TV Series").or (sqlIsTrue c.tv_acceptable)).and
    (((SQLB.ofBool (!q.is_director)).or (sqlIsTrue c.is_director)).and
     (((SQLB.ofBool (!q.require_feature)).or (sqlIsTrue c.has_directed_feature)).and
      (((SQLB.ofBool (!q.is_writer)).or (sqlIsTrue c.is_writer)).and
       ((SQLB.ofBool (!q.is_writer)).or (bandCond q.writer_band c.writer_level)))))))

/-- A creative passes the eligibility filter when the WHERE clause
evaluates to SQL TRUE. -/
def eligibleRow (mt : Option String) (c : Creative) (q : Quals) : Bool :=
  (candidateCond mt c q).isTrue

/-- Embedding of `get_filtered_candidates`: the SQL joins the need's
parent project to read its media type, then filters the creatives
table.  It returns each passing creative's id and availability. -/
def get_filtered_candidates (creatives : List Creative) (mt : Option String)
    (q : Quals) : List (String × Option String) :=
  (creatives.filter (fun c => eligibleRow mt c q)).map (fun c => (c.id, c.availability))

/-- The remaining (non-seniority) rules of the claim C1 statement: active
client, TV-acceptability when the project is a TV series, `is_writer`. -/
def remainingRulesOK (mt : Option String) (c : Creative) : Bool :=
  ((sqlEqStr c.client_status "client").and
   (((sqlNeStr mt "TV Series").or (sqlIsTrue c.tv_acceptable)).and
    (sqlIsTrue c.is_writer))).isTrue

/-! ## Stable descending sort

Python's `list.sort(key=..., reverse=True)` is a stable sort: rows are
reordered into descending key order and rows with equal keys keep their
original relative order.  We embed it as an insertion sort keyed by a
rational-valued function and prove the three properties (permutation,
descending order, per-key filter preservation) that characterize it
uniquely. -/

/-- Insert `x` in front of the first element whose key is not larger,
so `x` lands after every strictly larger element and before every
element of equal key that occurred later in the input. -/
def insertDesc (k : α → ℚ) (x : α) : List α → List α
  | [] => [x]
  | y :: ys => if k y ≤ k x then x :: y :: ys else y :: insertDesc k x ys

/-- Stable descending insertion sort by the key `k`. -/
def sortDesc (k : α → ℚ) : List α → List α
  | [] => []
  | x :: xs => insertDesc k x (sortDesc k xs)

theorem insertDesc_perm (k : α → ℚ) (x : α) (l : List α) :
    List.Perm (insertDesc k x l) (x :: l) := by
  induction l with
  | nil => exact List.Perm.refl _
  | cons y ys ih =>
    by_cases h : k y ≤ k x
    · rw [insertDesc, if_pos h]
    · rw [insertDesc, if_neg h]
      exact ((ih.cons y).trans (List.Perm.swap x y ys))

theorem sortDesc_perm (k : α → ℚ) (l : List α) : List.Perm (sortDesc k l) l := by
  induction l with
  | nil => exact List.Perm.refl _
  | cons x xs ih =>
    exact (insertDesc_perm k x (sortDesc k xs)).trans (ih.cons x)

theorem mem_insertDesc (k : α → ℚ) (x z : α) (l : List α) :
    z ∈ insertDesc k x l ↔ z = x ∨ z ∈ l := by
  rw [(insertDesc_perm k x l).mem_iff]
  simp

theorem insertDesc_sorted (k : α → ℚ) (x : α) (l : List α)
    (h : l.Pairwise (fun a b => k b ≤ k a)) :
    (insertDesc k x l).Pairwise (fun a b => k b ≤ k a) := by
  induction l with
  | nil => simp [insertDesc]
  | cons y ys ih =>
    rcases List.pairwise_cons.mp h with ⟨hy, hys⟩
    by_cases hxy : k y ≤ k x
    · rw [insertDesc, if_pos hxy]
      refine List.pairwise_cons.mpr ⟨?_, h⟩
      intro z hz
      rcases List.mem_cons.mp hz with rfl | hz
      · exact hxy
      · exact le_trans (hy z hz) hxy
    · rw [insertDesc, if_neg hxy]
      refine List.pairwise_cons.mpr ⟨?_, ih hys⟩
      intro z hz
      rcases (mem_insertDesc k x z ys).mp hz with rfl | hz
      · exact le_of_lt (lt_of_not_le hxy)
      · exact hy z hz

theorem sortDesc_sorted (k : α → ℚ) (l : List α) :
    (sortDesc k l).Pairwise (fun a b => k b ≤ k a) := by
  induction l with
  | nil => simp [sortDesc]
  | cons x xs ih => exact insertDesc_sorted k x (sortDesc k xs) ih

theorem insertDesc_filter_eq (k : α → ℚ) (x : α) (l : List α) (s : ℚ)
    (hx : k x = s) :
    (insertDesc k x l).filter (fun a => decide (k a = s)) =
      x :: l.filter (fun a => decide (k a = s)) := by
  induction l with
  | nil => simp [insertDesc, hx]
  | cons y ys ih =>
    by_cases hxy : k y ≤ k x
    · rw [insertDesc, if_pos hxy, List.filter_cons, List.filter_cons]
      simp [hx]
    · have hy : ¬ (k y = s) := fun hys => hxy (le_of_eq (hys.trans hx.symm))
      rw [insertDesc, if_neg hxy, List.filter_cons, List.filter_cons]
      simp [hy, ih]

theorem insertDesc_filter_ne (k : α → ℚ) (x : α) (l : List α) (s : ℚ)
    (hx : k x ≠ s) :
    (insertDesc k x l).filter (fun a => decide (k a = s)) =
      l.filter (fun a => decide (k a = s)) := by
  induction l with
  | nil => simp [insertDesc, hx]
  | cons y ys ih =>
    by_cases hxy : k y ≤ k x
    · rw [insertDesc, if_pos hxy, List.filter_cons, List.filter_cons]
      simp [hx]
    · rw [insertDesc, if_neg hxy, List.filter_cons, List.filter_cons, ih]

/-- Stability of the sort: restricted to the rows of any one key value,
the sorted list is the input list. -/
theorem sortDesc_filter (k : α → ℚ) (l : List α) (s : ℚ) :
    (sortDesc k l).filter (fun a => decide (k a = s)) =
      l.filter (fun a => decide (k a = s)) := by
  induction l with
  | nil => rfl
  | cons x xs ih =>
    by_cases hx : k x = s
    · rw [sortDesc, insertDesc_filter_eq k x _ s hx, ih]
      simp [hx]
    · rw [sortDesc, insertDesc_filter_ne k x _ s hx, ih]
      simp [hx]

/-- Uniqueness of a stable descending sort: any two lists that are
permutations of each other, are both in descending key order, and agree
on every per-key filter, are equal.  Together with `sortDesc_perm`,
`sortDesc_sorted` and `sortDesc_filter`, this pins `sortDesc` down as
the unique stable descending sort. -/
theorem stable_sort_unique (k : α → ℚ) :
    ∀ (m m' : List α), List.Perm m m' →
      m.Pairwise (fun a b => k b ≤ k a) →
      m'.Pairwise (fun a b => k b ≤ k a) →
      (∀ s : ℚ, m.filter (fun a => decide (k a = s)) =
        m'.filter (fun a => decide (k a = s))) →
      m = m' := by
  intro m
  induction m with
  | nil =>
    intro m' hperm _ _ _
    exact (List.Perm.nil_eq hperm).symm ▸ rfl
  | cons a t ih =>
    intro m' hperm hm hm' hfilt
    cases m' with
    | nil => exact absurd hperm.symm (by simp)
    | cons b t' =>
      have hab : a = b := by
        have hka : ∀ z ∈ b :: t', k z ≤ k a := by
          intro z hz
          rcases List.mem_cons.mp (hperm.symm.subset hz) with rfl | hzt
          · exact le_refl _
          · exact (List.pairwise_cons.mp hm).1 z hzt
        have hkb : ∀ z ∈ a :: t, k z ≤ k b := by
          intro z hz
          rcases List.mem_cons.mp (hperm.subset hz) with rfl | hzt
          · exact le_refl _
          · exact (List.pairwise_cons.mp hm').1 z hzt
        have hkeq : k a = k b :=
          le_antisymm (hkb a (List.mem_cons_self a t)) (hka b (List.mem_cons_self b t'))
        have := hfilt (k a)
        rw [List.filter_cons, List.filter_cons] at this
        simp [← hkeq] at this
        exact this.1
      subst hab
      have htperm : List.Perm t t' := hperm.cons_inv
      have hteq : t = t' := by
        refine ih t' htperm (List.pairwise_cons.mp hm).2 (List.pairwise_cons.mp hm').2 ?_
        intro s
        have := hfilt s
        rw [List.filter_cons, List.filter_cons] at this
        by_cases hs : k a = s
        · simpa [hs] using this
        · simpa [hs] using this
      rw [hteq]

/-! ## Ranker (`rank.py`) -/

/-- Feedback flags carried per candidate (`feedback.py` rollup shape;
events are kept opaque). -/
structure FeedbackSummary where
  any_positive : Bool
  any_non_positive : Bool
  has_subs_to_staffing : Bool
  has_subs_no_feedback : Bool
  events : List String
deriving DecidableEq, Repr

/-- Default summary used when the feedback map has no entry for a
candidate (the Python dict lookup defaults). -/
def FeedbackSummary.empty : FeedbackSummary :=
  { any_positive := false, any_non_positive := false,
    has_subs_to_staffing := false, has_subs_no_feedback := false, events := [] }

/-- Row of the similarity pool produced by `knn_candidates` (knn.py). -/
structure KnnRow where
  creative_id : String
  sim : ℚ
deriving DecidableEq, Repr

/-- Row shape built by `rank_with_flags` (and enriched later with a
justification by the pipelines). -/
structure RankedRow where
  creative_id : String
  score : ℚ
  sim : ℚ
  availability : Option String
  feedback_summary : FeedbackSummary
  justification : Option String := none
deriving DecidableEq, Repr

/-- Row construction of `rank_with_flags` before sorting. -/
def mkRankedRow (availability_map : String → Option String)
    (feedback_map : String → Option FeedbackSummary) (r : KnnRow) : RankedRow :=
  { creative_id := r.creative_id, score := r.sim, sim := r.sim,
    availability := availability_map r.creative_id,
    feedback_summary := (feedback_map r.creative_id).getD FeedbackSummary.empty }

/-- Embedding of `rank_with_flags` (rank.py): sort by score descending
(stable), keep the first 10, then pick from rank 11 onward at most 5 rows
with positive feedback, in order. -/
def rank_with_flags (knn : List KnnRow) (availability_map : String → Option String)
    (feedback_map : String → Option FeedbackSummary) :
    List RankedRow × List RankedRow :=
  let rows := knn.map (mkRankedRow availability_map feedback_map)
  let sorted := sortDesc (fun r => r.score) rows
  (sorted.take 10,
   ((sorted.drop 10).filter (fun r => r.feedback_summary.any_positive)).take 5)

/-! ## Reverse-pipeline filters (`reverse_filters.py`) -/

def MEDIA_ORDER : List String := ["Feature", "TV Series", "Play", "Other"]

def QUAL_ORDER : List String := ["OWA", "Staff Writer", "ODA", "Director"]

/-- Embedding of `canonical_media_list`: membership in the chosen set,
emitted in the fixed `MEDIA_ORDER`. -/
def canonical_media_list (chosen : List String) : List String :=
  MEDIA_ORDER.filter (fun m => chosen.contains m)

/-- Embedding of `canonical_qual_list`. -/
def canonical_qual_list (chosen : List String) : List String :=
  QUAL_ORDER.filter (fun q => chosen.contains q)

/-- Embedding of `writer_quals_for_level`: acceptable qualification label
strings for the Staff Writer bucket, given the creative's (nullable)
writer level.  The Python `float(level)` conversion cannot fail for the
numeric column value, so the `except` branch is unreachable here; the
tuple literals 5.5 and 4.5 are written `mkRat 11 2` and `mkRat 9 2`. -/
def writer_quals_for_level (level : Option ℚ) : List String :=
  match level with
  | none => ["Writer (Any)", "Writer (Lower)"]
  | some lvl =>
    if 6 < lvl then
      ["Writer (Any)", "Writer (Upper)", "Writer (Mid - Upper)"]
    else if lvl = 6 then
      ["Writer (Any)", "Writer (Upper)", "Writer (Mid - Upper)", "Writer (Mid)"]
    else if lvl = mkRat 11 2 ∨ lvl = 5 ∨ lvl = mkRat 9 2 then
      ["Writer (Any)", "Writer (Mid - Upper)", "Writer (Mid)", "Writer (Lower - Mid)"]
    else if lvl = 4 then
      ["Writer (Any)", "Writer (Lower)", "Writer (Lower - Mid)", "Writer (Mid)"]
    else if lvl < 4 then
      ["Writer (Any)", "Writer (Lower)", "Writer (Lower - Mid)"]
    else
      ["Writer (Any)"]

/-- Embedding of `director_quals`; the argument is truthy-tested in
Python, so a NULL column value behaves like FALSE. -/
def director_quals (has_feature : Option Bool) : List String :=
  if has_feature.getD false then
    ["Director (Any)", "Director (Has Directed Feature)"]
  else
    ["Director (Any)"]

/-! ## Result caches (`cache.py`, `creative_need_cache.py`)

Both tables are keyed by a (subject id, canonical parameter set) pair with
a uniqueness constraint on the key; the INSERT ... ON CONFLICT DO UPDATE
statements replace the payload and bump `run_started_at` when the key
already exists.  We embed a table as a list of rows and the upsert as a
replace-or-append. -/

structure CacheRow (κ ρ : Type) where
  key : κ
  results : ρ
  run_started_at : Nat
deriving DecidableEq, Repr

/-- Embedding of the `ON CONFLICT (key) DO UPDATE` upsert: when a row
with the key exists its payload is replaced and its timestamp bumped to
`now`; otherwise a fresh row is inserted (timestamp defaulting to the
insertion time). -/
def upsertRow [DecidableEq κ] (t : List (CacheRow κ ρ)) (k : κ) (r : ρ)
    (now : Nat) : List (CacheRow κ ρ) :=
  if t.any (fun row => decide (row.key = k)) then
    t.map (fun row =>
      if row.key = k then { row with results := r, run_started_at := now } else row)
  else
    t ++ [{ key := k, results := r, run_started_at := now }]

/-- Number of rows holding the key (the uniqueness constraint keeps this
at most 1 in a live database). -/
def countKey [DecidableEq κ] (t : List (CacheRow κ ρ)) (k : κ) : Nat :=
  (t.filter (fun row => decide (row.key = k))).length

/-- Lookup of the row holding the key, if any. -/
def lookupKey [DecidableEq κ] (t : List (CacheRow κ ρ)) (k : κ) :
    Option (CacheRow κ ρ) :=
  t.find? (fun row => decide (row.key = k))

/-! ## Reverse pipeline (`reverse_pipeline.py`)

The `Q_RANK` SQL is embedded over explicit join rows: `needRows cid` is
the join of active-status-agnostic `project_needs × projects ×
need_embeddings` together with the cosine similarity against creative
`cid`'s embedding.  Each WHERE-clause atom below appears positively
(under AND/OR only), so SQL's three-valued logic degenerates to Boolean
logic with NULL comparisons reading as false; the helpers encode exactly
that. -/

/-- SQL `x = 'lit'` as a row-keeping test (NULL keeps nothing). -/
def sqlEqLit (x : Option String) (lit : String) : Bool :=
  decide (x = some lit)

/-- SQL `x <> 'lit'` as a row-keeping test (NULL keeps nothing). -/
def sqlNeLit : Option String → String → Bool
  | none, _ => false
  | some v, lit => decide (v ≠ lit)

/-- SQL `x = ANY(list)` as a row-keeping test. -/
def sqlInList : Option String → List String → Bool
  | none, _ => false
  | some v, l => l.contains v

/-- SQL `x NOT IN (list)` as a row-keeping test (NULL keeps nothing). -/
def sqlNotInList : Option String → List String → Bool
  | none, _ => false
  | some v, l => !(l.contains v)

/-- One row of the `Q_RANK` base CTE. -/
structure NeedRow where
  need_id : String
  project_id : String
  project_title : String
  media_type : Option String
  need_status : String
  tracking_status : Option String
  qualifications : Option String
  sim : ℚ
deriving DecidableEq, Repr

/-- Embedding of `_booleans_for_media`. -/
structure MediaFlags where
  mt_feature : Bool
  mt_tv : Bool
  mt_play : Bool
  mt_other : Bool
deriving DecidableEq, Repr

def booleans_for_media (media_list : List String) : MediaFlags :=
  { mt_feature := media_list.contains "Feature",
    mt_tv := media_list.contains "TV Series",
    mt_play := media_list.contains "Play",
    mt_other := media_list.contains "Other" }

/-- WHERE clause of the `Q_RANK` base CTE, for one join row. -/
def revWherePred (include_archived : Bool) (m : MediaFlags)
    (q_owa q_oda q_staff q_dir : Bool)
    (writer_qual_list director_qual_list : List String) (r : NeedRow) : Bool :=
  decide (r.need_status = "Active") &&
  (include_archived || sqlNeLit r.tracking_status "Archived") &&
  ((m.mt_feature && sqlEqLit r.media_type "Feature") ||
   (m.mt_tv && sqlEqLit r.media_type "TV Series") ||
   (m.mt_play && sqlEqLit r.media_type "Play") ||
   (m.mt_other && sqlNotInList r.media_type ["Feature", "TV Series", "Play"])) &&
  ((q_owa && sqlEqLit r.qualifications "OWA") ||
   (q_oda && sqlEqLit r.qualifications "ODA") ||
   (q_staff && sqlInList r.qualifications writer_qual_list) ||
   (q_dir && sqlInList r.qualifications director_qual_list))

/-- First row of maximal similarity in a list (ties resolved to the
earliest row, matching one admissible execution of the unspecified
tie order of `DISTINCT ON ... ORDER BY project_id, sim DESC`). -/
def maxSimRow : List NeedRow → Option NeedRow
  | [] => none
  | r :: rs => some (rs.foldl (fun b x => if b.sim < x.sim then x else b) r)

def insertAscStr (x : String) : List String → List String
  | [] => [x]
  | y :: ys => if x ≤ y then x :: y :: ys else y :: insertAscStr x ys

/-- Ascending sort of the distinct project ids, matching the
`ORDER BY project_id` component of `Q_RANK`. -/
def sortAscStr : List String → List String
  | [] => []
  | x :: xs => insertAscStr x (sortAscStr xs)

/-- Embedding of `SELECT DISTINCT ON (project_id) ... ORDER BY
project_id, sim DESC`: one row per project id, namely a row of maximal
similarity within that project's rows. -/
def distinctOnProject (rows : List NeedRow) : List NeedRow :=
  (sortAscStr (rows.map (fun r => r.project_id)).dedup).filterMap
    (fun pid => maxSimRow (rows.filter (fun r => decide (r.project_id = pid))))

/-- Entry shape produced by step 4 of `run_reverse_pipeline` (the join
guarantees a non-NULL similarity, so the Python `r.sim or 0.0` NULL
guard is the identity here). -/
structure RevEntry where
  need_id : String
  project_id : String
  project_title : String
  media_type : Option String
  need_qual : Option String
  sim : ℚ
  justification : Option String := none
deriving DecidableEq, Repr

def shapeRevEntry (r : NeedRow) : RevEntry :=
  { need_id := r.need_id, project_id := r.project_id,
    project_title := r.project_title, media_type := r.media_type,
    need_qual := r.qualifications, sim := r.sim }

/-- Canonicalized filter triple: both the `filters` block of the result
and the cache-key parameter object of `upsert_results`. -/
structure RevFilters where
  media_type_filter : List String
  qualifications_filter : List String
  include_archived : Bool
deriving DecidableEq, Repr

/-- Reverse-pipeline result dictionary; absent JSON keys on the two
early-error returns are `none` (in particular `filters` is the empty
object there). -/
structure RevResult where
  creative_id : String
  filters : Option RevFilters := none
  ranked : List RevEntry
  considered_count : Option Nat := none
  model : Option String := none
  error : Option String := none
deriving DecidableEq, Repr

/-- Database state visible to the reverse pipeline.  `needRows cid` is
the `Q_RANK` join against creative `cid`'s embedding; `genJust` abstracts
the LLM justification call of step 5, which the `try/except` in `enrich`
always turns into some string. -/
structure ReverseDB where
  creatives : List Creative
  embedded : List String
  needRows : String → List NeedRow
  revCache : List (CacheRow (String × RevFilters) RevResult)
  genJust : String → String
  now : Nat

/-- Embedding of `run_reverse_pipeline`: returns the result dictionary
and the updated database state (cache write included). -/
def run_reverse_pipeline (db : ReverseDB) (creative_id : String)
    (media_filter quals_filter : List String)
    (limit_projects : Nat := 30) (include_archived : Bool := true) :
    RevResult × ReverseDB :=
  match db.creatives.find? (fun c => decide (c.id = creative_id)) with
  | none =>
    ({ creative_id := creative_id, ranked := [],
       error := some "Creative not found" }, db)
  | some c =>
    if !(db.embedded.contains creative_id) then
      ({ creative_id := creative_id, ranked := [],
         error := some "No client embedding. Update AI Profile first." }, db)
    else
      let media_canon :=
        canonical_media_list (if media_filter.isEmpty then MEDIA_ORDER else media_filter)
      let quals_canon :=
        canonical_qual_list (if quals_filter.isEmpty then QUAL_ORDER else quals_filter)
      let writer_allowed := writer_quals_for_level c.writer_level
      let director_allowed := director_quals c.has_directed_feature
      let m := booleans_for_media media_canon
      let rows := (db.needRows creative_id).filter
        (revWherePred include_archived m
          (quals_canon.contains "OWA") (quals_canon.contains "ODA")
          (quals_canon.contains "Staff Writer") (quals_canon.contains "Director")
          writer_allowed director_allowed)
      let scored := sortDesc (fun e => e.sim) ((distinctOnProject rows).map shapeRevEntry)
      let top := scored.take limit_projects
      let ranked := top.map (fun e => { e with justification := some (db.genJust e.project_id) })
      let filt : RevFilters :=
        { media_type_filter := media_canon, qualifications_filter := quals_canon,
          include_archived := include_archived }
      let result : RevResult :=
        { creative_id := creative_id, filters := some filt, ranked := ranked,
          considered_count := some scored.length, model := some "vector-cosine" }
      (result,
       { db with revCache := upsertRow db.revCache (creative_id, filt) result db.now })

/-! ## Forward pipeline (`pipeline.py`) -/

/-- The `params_json` JSON object of the forward cache key, as an
association list; `run_pipeline` always passes the empty object. -/
abbrev ForwardParams := List (String × String)

/-- Row of `project_needs` as read by `Q_NEED`. -/
structure NeedRec where
  id : String
  project_id : String
  qualifications : Option String
deriving DecidableEq, Repr

/-- Row of `projects`, restricted to the columns the engine reads. -/
structure ProjRec where
  id : String
  media_type : Option String
  tracking_status : Option String
deriving DecidableEq, Repr

/-- Forward-pipeline result dictionary; the two empty short-circuit
results carry no `model` and no `filters` key (`none`). -/
structure ForwardResult where
  need_id : String
  model : Option String := none
  filtersQuals : Option Quals := none
  ranked : List RankedRow
  honorable_mentions : List RankedRow
deriving DecidableEq, Repr

/-- Database state visible to the forward pipeline.  `knnF` abstracts the
pgvector similarity query of `knn_candidates` (need id and candidate-id
scope to similarity pool), `feedbackF` abstracts the `feedback_rollup`
aggregate (project id, creative id to summary), and `justF` abstracts the
LLM justification call, which the `try/except` in `enrich` always turns
into some string. -/
structure ForwardDB where
  needs : List NeedRec
  projects : List ProjRec
  creatives : List Creative
  needEmb : List String
  knnF : String → List String → List KnnRow
  feedbackF : String → String → Option FeedbackSummary
  justF : String → String → String
  needCache : List (CacheRow (String × ForwardParams) ForwardResult)
  now : Nat

/-- Embedding of `ensure_need_embedding` (project_context.py): the
embedding upsert is keyed by need id (vector content lives behind
`knnF`), so at the state level it ensures the need id is present. -/
def ensure_need_embedding (db : ForwardDB) (nid : String) : ForwardDB :=
  { db with needEmb := if db.needEmb.contains nid then db.needEmb else db.needEmb ++ [nid] }

/-- Embedding of `run_pipeline` (pipeline.py): returns the result
dictionary and the updated database state.  The `EMBED_MODEL` environment
default is the literal the source falls back to. -/
def run_pipeline (db : ForwardDB) (need_id : String) : ForwardResult × ForwardDB :=
  match db.needs.find? (fun n => decide (n.id = need_id)) with
  | none =>
    let result : ForwardResult :=
      { need_id := need_id, ranked := [], honorable_mentions := [] }
    (result,
     { db with needCache := upsertRow db.needCache (need_id, ([] : ForwardParams)) result db.now })
  | some n =>
    let quals := parse_qualifications n.qualifications
    let cands : List (String × Option String) :=
      match db.projects.find? (fun p => decide (p.id = n.project_id)) with
      | none => []
      | some p => get_filtered_candidates db.creatives p.media_type quals
    if cands.isEmpty then
      let result : ForwardResult :=
        { need_id := need_id, ranked := [], honorable_mentions := [] }
      (result,
       { db with needCache := upsertRow db.needCache (need_id, ([] : ForwardParams)) result db.now })
    else
      let db1 := ensure_need_embedding db need_id
      let filtered_ids := cands.map Prod.fst
      let knn := db1.knnF need_id filtered_ids
      let avail : String → Option String := fun cid =>
        ((cands.find? (fun c => decide (c.1 = cid))).map Prod.snd).join
      let pair := rank_with_flags knn avail (db1.feedbackF n.project_id)
      let enrich : RankedRow → RankedRow := fun e =>
        { e with justification := some (db1.justF n.project_id e.creative_id) }
      let result : ForwardResult :=
        { need_id := need_id, model := some "local-stub@1536",
          filtersQuals := some quals,
          ranked := pair.1.map enrich, honorable_mentions := pair.2.map enrich }
      (result,
       { db1 with needCache := upsertRow db1.needCache (need_id, ([] : ForwardParams)) result db1.now })

/-! ## Batch orchestrator (`backfill_needs`, router.py)

The synchronous batch endpoint `POST /ai/recommendations/backfill/needs`
selects the eligible need ids, then loops: each item's `run_pipeline`
call either completes or raises; a raised exception is caught, recorded
as an entry of the `errors` list keyed by the need id, and the loop
continues.  Nothing is rolled back by this loop, and a failed
`run_pipeline` may already have committed partial work, so the per-item
runner returns the post-item state in the failure case too: `runner`
maps a state and a need id to the state the item left behind and,
when the item raised, the exception's message. -/

structure BackfillItemError where
  need_id : String
  error : String
deriving DecidableEq, Repr

/-- Outcome of the item loop of `backfill_needs`: final state, number of
successful items (`generated`), and the collected error entries in loop
order. -/
structure LoopOut (σ : Type) where
  state : σ
  generated : Nat
  errors : List BackfillItemError
deriving Repr

/-- The `for nid in need_ids: try ... except ...` loop of
`backfill_needs`. -/
def backfill_loop (runner : σ → String → σ × Option String) :
    σ → List String → LoopOut σ
  | db, [] => ⟨db, 0, []⟩
  | db, nid :: rest =>
    match runner db nid with
    | (db2, none) =>
      let r := backfill_loop runner db2 rest
      ⟨r.state, r.generated + 1, r.errors⟩
    | (db2, some e) =>
      let r := backfill_loop runner db2 rest
      ⟨r.state, r.generated, { need_id := nid, error := e } :: r.errors⟩

/-- The `summary` block of the `backfill_needs` response. -/
structure BackfillSummary where
  processed : Nat
  generated : Nat
  skipped : Nat
  remaining_before : Nat
  remaining_after : Nat
  tracking_statuses : List String
  limit : Nat
  reprocess_existing : Bool
deriving DecidableEq, Repr

/-- Response body of `backfill_needs`. -/
structure BackfillNeedsResponse where
  summary : BackfillSummary
  needs : List String
  errors : List BackfillItemError
deriving DecidableEq, Repr

/-- Embedding of `backfill_needs` (router.py).  `countRemaining` models
the `_count_remaining` SQL and `selectIds` the need-selection SQL, both
already specialized to the request's tracking statuses, limit and
reprocess flag; the Python `max(0, remaining_before - generated)` is
truncated natural subtraction. -/
def backfill_needs (runner : σ → String → σ × Option String)
    (countRemaining : σ → Nat) (selectIds : σ → List String) (db : σ)
    (ts : List String) (limit : Nat) (dry_run reprocess_existing : Bool) :
    BackfillNeedsResponse × σ :=
  let remaining_before := countRemaining db
  if remaining_before = 0 then
    ({ summary :=
        { processed := 0, generated := 0, skipped := 0,
          remaining_before := 0, remaining_after := 0,
          tracking_statuses := ts, limit := limit,
          reprocess_existing := reprocess_existing },
       needs := [], errors := [] }, db)
  else
    let need_ids := selectIds db
    if dry_run then
      ({ summary :=
          { processed := need_ids.length, generated := 0, skipped := 0,
            remaining_before := remaining_before,
            remaining_after := remaining_before,
            tracking_statuses := ts, limit := limit,
            reprocess_existing := reprocess_existing },
         needs := need_ids, errors := [] }, db)
    else
      let r := backfill_loop runner db need_ids
      let remaining_after :=
        if reprocess_existing then remaining_before - r.generated
        else countRemaining r.state
      ({ summary :=
          { processed := need_ids.length, generated := r.generated,
            skipped := need_ids.length - r.generated,
            remaining_before := remaining_before,
            remaining_after := remaining_after,
            tracking_statuses := ts, limit := limit,
            reprocess_existing := reprocess_existing },
         needs := need_ids, errors := r.errors }, r.state)

/-! ## Embedding provider (`embeddings.py`)

Vector components are real numbers (the numpy float32 arithmetic is
modeled by exact real arithmetic, so the `isfinite` guard of
`_normalize` has no residual content: a real norm is always finite).
The OpenAI client is a parameter `provider` mapping a chunk and an
attempt number to either a response (one vector per text) or a raised
transient error (`none`); `hash` abstracts `hashlib.sha256(...).digest()`
as the 32-byte list it returns. -/

def sumSq (v : List ℝ) : ℝ := (v.map (fun x => x * x)).sum

noncomputable def norm2 (v : List ℝ) : ℝ := Real.sqrt (sumSq v)

/-- Embedding of `_normalize`: divide by the L2 norm unless it is zero
(or, in numpy, non-finite), in which case the vector is returned
unchanged. -/
noncomputable def normalizeV (v : List ℝ) : List ℝ :=
  let n := norm2 v
  if n = 0 then v else v.map (fun x => x / n)

/-- The centered byte vector of the hash fallback: sha256 bytes repeated
up to the embedding dimension, cast to floats, minus their mean. -/
noncomputable def fallbackCentered (hash : String → List ℕ) (dim : ℕ)
    (t : String) : List ℝ :=
  let h := hash t
  let raw := (List.flatten (List.replicate (dim / h.length + 1) h)).take dim
  let arr : List ℝ := raw.map (fun b => (b : ℝ))
  let m : ℝ := arr.sum / (arr.length : ℝ)
  arr.map (fun x => x - m)

/-- Deterministic content-derived fallback vector (the final-attempt
`except` branch of `embed_texts`): the centered hash bytes, divided by
their norm when that norm is positive. -/
noncomputable def fallbackVec (hash : String → List ℕ) (dim : ℕ)
    (t : String) : List ℝ :=
  let centered := fallbackCentered hash dim t
  let n := norm2 centered
  if 0 < n then centered.map (fun x => x / n) else centered

/-- Output of the embedding call: the vectors, plus the log of backoff
sleeps performed (one entry per caught transient error). -/
structure EmbedOut where
  out : List (List ℝ)
  sleeps : List ℕ

/-- Retry loop of `embed_texts` for one chunk: `attempt` is the current
attempt index, `left` the number of further attempts available (the
Python loop runs attempts 0..4 and falls back inside the handler of
attempt 4, after the final sleep). -/
noncomputable def embedChunkGo (provider : List String → ℕ → Option (List (List ℝ)))
    (hash : String → List ℕ) (dim : ℕ) (normalize : Bool) (chunk : List String) :
    ℕ → ℕ → EmbedOut
  | attempt, 0 =>
    match provider chunk attempt with
    | some vecs =>
      ⟨vecs.map (fun v => if normalize then normalizeV v else v), []⟩
    | none => ⟨chunk.map (fallbackVec hash dim), [min (2 ^ attempt) 8]⟩
  | attempt, left2 + 1 =>
    match provider chunk attempt with
    | some vecs =>
      ⟨vecs.map (fun v => if normalize then normalizeV v else v), []⟩
    | none =>
      let rest := embedChunkGo provider hash dim normalize chunk (attempt + 1) left2
      ⟨rest.out, min (2 ^ attempt) 8 :: rest.sleeps⟩

/-- One chunk of `embed_texts`: up to 5 attempts. -/
noncomputable def embedChunk (provider : List String → ℕ → Option (List (List ℝ)))
    (hash : String → List ℕ) (dim : ℕ) (normalize : Bool)
    (chunk : List String) : EmbedOut :=
  embedChunkGo provider hash dim normalize chunk 0 4

/-- Consecutive slices of size `bs` (the `texts[i : i + batch_size]`
loop; a zero batch size would loop forever in Python and is modeled as a
single chunk — callers always pass a positive size). -/
def chunksOf : ℕ → List α → List (List α)
  | _, [] => []
  | 0, l => [l]
  | bs + 1, x :: xs =>
    ((x :: xs).take (bs + 1)) :: chunksOf (bs + 1) ((x :: xs).drop (bs + 1))
termination_by _ l => l.length
decreasing_by simp; omega

def embedCombine (e acc : EmbedOut) : EmbedOut :=
  ⟨e.out ++ acc.out, e.sleeps ++ acc.sleeps⟩

/-- Embedding of `embed_texts`: process the chunks in order,
concatenating the per-chunk vectors (and sleep logs). -/
noncomputable def embed_texts (provider : List String → ℕ → Option (List (List ℝ)))
    (hash : String → List ℕ) (dim : ℕ) (texts : List String)
    (batch_size : ℕ := 96) (normalize : Bool := true) : EmbedOut :=
  (chunksOf batch_size texts).foldr
    (fun chunk acc => embedCombine (embedChunk provider hash dim normalize chunk) acc)
    ⟨[], []⟩

theorem sumSq_nonneg (v : List ℝ) : 0 ≤ sumSq v := by
  refine List.sum_nonneg ?_
  intro x hx
  rcases List.mem_map.mp hx with ⟨y, _, rfl⟩
  exact mul_self_nonneg y

theorem sumSq_cons (x : ℝ) (v : List ℝ) : sumSq (x :: v) = x * x + sumSq v := by
  simp [sumSq]

theorem sumSq_map_div (v : List ℝ) (n : ℝ) :
    sumSq (v.map (fun x => x / n)) = sumSq v / (n * n) := by
  induction v with
  | nil => simp [sumSq]
  | cons x xs ih =>
    simp only [List.map_cons, sumSq_cons, ih]
    field_simp

theorem norm2_eq_zero_iff (v : List ℝ) : norm2 v = 0 ↔ sumSq v = 0 := by
  unfold norm2
  exact Real.sqrt_eq_zero (sumSq_nonneg v)

theorem sumSq_normalizeV (v : List ℝ) (h : sumSq v ≠ 0) :
    sumSq (normalizeV v) = 1 := by
  have hn : norm2 v ≠ 0 := fun hz => h ((norm2_eq_zero_iff v).mp hz)
  unfold normalizeV
  rw [if_neg hn, sumSq_map_div]
  have hsq : norm2 v * norm2 v = sumSq v := Real.mul_self_sqrt (sumSq_nonneg v)
  rw [hsq]
  exact div_self h

theorem sumSq_eq_zero_of_all_zero (v : List ℝ) (h : ∀ x ∈ v, x = 0) :
    sumSq v = 0 := by
  induction v with
  | nil => simp [sumSq]
  | cons x xs ih =>
    rw [sumSq_cons, ih (fun y hy => h y (List.mem_cons_of_mem x hy)),
      h x (List.mem_cons_self x xs)]
    ring

theorem sumSq_fallbackVec (hash : String → List ℕ) (dim : ℕ) (t : String)
    (h : sumSq (fallbackCentered hash dim t) ≠ 0) :
    sumSq (fallbackVec hash dim t) = 1 := by
  have hpos : 0 < norm2 (fallbackCentered hash dim t) := by
    unfold norm2
    refine Real.sqrt_pos.mpr ?_
    exact lt_of_le_of_ne (sumSq_nonneg _) (Ne.symm h)
  unfold fallbackVec
  rw [if_pos hpos, sumSq_map_div]
  have hsq : norm2 (fallbackCentered hash dim t) * norm2 (fallbackCentered hash dim t)
      = sumSq (fallbackCentered hash dim t) := Real.mul_self_sqrt (sumSq_nonneg _)
  rw [hsq]
  exact div_self h

theorem embedCombine_out (e acc : EmbedOut) :
    (embedCombine e acc).out = e.out ++ acc.out := rfl

theorem embedCombine_sleeps (e acc : EmbedOut) :
    (embedCombine e acc).sleeps = e.sleeps ++ acc.sleeps := rfl

theorem embedChunk_all_fail (provider : List String → ℕ → Option (List (List ℝ)))
    (hash : String → List ℕ) (dim : ℕ) (nrm : Bool) (chunk : List String)
    (hfail : ∀ a, provider chunk a = none) :
    embedChunk provider hash dim nrm chunk =
      ⟨chunk.map (fallbackVec hash dim), [1, 2, 4, 8, 8]⟩ := by
  unfold embedChunk
  show embedChunkGo provider hash dim nrm chunk 0 (3 + 1) = _
  rw [embedChunkGo, hfail 0]
  show (⟨_, min (2 ^ 0) 8 :: (embedChunkGo provider hash dim nrm chunk 1 (2 + 1)).sleeps⟩ :
    EmbedOut) = _
  rw [embedChunkGo, hfail 1]
  show (⟨_, _ :: min (2 ^ 1) 8 ::
    (embedChunkGo provider hash dim nrm chunk 2 (1 + 1)).sleeps⟩ : EmbedOut) = _
  rw [embedChunkGo, hfail 2]
  show (⟨_, _ :: _ :: min (2 ^ 2) 8 ::
    (embedChunkGo provider hash dim nrm chunk 3 (0 + 1)).sleeps⟩ : EmbedOut) = _
  rw [embedChunkGo, hfail 3]
  rw [embedChunkGo, hfail 4]
  norm_num

theorem embedChunk_second_attempt (provider : List String → ℕ → Option (List (List ℝ)))
    (hash : String → List ℕ) (dim : ℕ) (nrm : Bool) (chunk : List String)
    (vecs : List (List ℝ)) (h0 : provider chunk 0 = none)
    (h1 : provider chunk 1 = some vecs) :
    embedChunk provider hash dim nrm chunk =
      ⟨vecs.map (fun v => if nrm then normalizeV v else v), [1]⟩ := by
  unfold embedChunk
  show embedChunkGo provider hash dim nrm chunk 0 (3 + 1) = _
  rw [embedChunkGo, h0]
  show (⟨(embedChunkGo provider hash dim nrm chunk 1 (2 + 1)).out,
    min (2 ^ 0) 8 :: (embedChunkGo provider hash dim nrm chunk 1 (2 + 1)).sleeps⟩ :
    EmbedOut) = _
  rw [embedChunkGo, h1]
  norm_num

theorem join_chunksOf (bs : ℕ) (l : List α) : (chunksOf bs l).flatten = l := by
  induction bs, l using chunksOf.induct with
  | case1 bs => simp [chunksOf]
  | case2 l _ => simp [chunksOf]
  | case3 bs x xs ih =>
    rw [chunksOf]
    simp only [List.flatten_cons, ih]
    exact List.take_append_drop _ _

theorem embed_texts_all_fail (provider : List String → ℕ → Option (List (List ℝ)))
    (hash : String → List ℕ) (dim : ℕ) (texts : List String)
    (bs : ℕ) (nrm : Bool) (hfail : ∀ chunk a, provider chunk a = none) :
    (embed_texts provider hash dim texts bs nrm).out =
        texts.map (fallbackVec hash dim) ∧
      (embed_texts provider hash dim texts bs nrm).sleeps =
        ((chunksOf bs texts).map (fun _ => [1, 2, 4, 8, 8])).flatten := by
  unfold embed_texts
  have haux : ∀ cs : List (List String),
      (cs.foldr (fun chunk acc =>
          embedCombine (embedChunk provider hash dim nrm chunk) acc)
        ⟨[], []⟩).out = cs.flatten.map (fallbackVec hash dim) ∧
      (cs.foldr (fun chunk acc =>
          embedCombine (embedChunk provider hash dim nrm chunk) acc)
        ⟨[], []⟩).sleeps = (cs.map (fun _ => [1, 2, 4, 8, 8])).flatten := by
    intro cs
    induction cs with
    | nil => exact ⟨rfl, rfl⟩
    | cons c cs ih =>
      constructor
      · rw [List.foldr_cons, embedCombine_out,
          embedChunk_all_fail provider hash dim nrm c (hfail c), ih.1,
          List.flatten_cons, List.map_append]
      · rw [List.foldr_cons, embedCombine_sleeps,
          embedChunk_all_fail provider hash dim nrm c (hfail c), ih.2,
          List.map_cons, List.flatten_cons]
  rcases haux (chunksOf bs texts) with ⟨h1, h2⟩
  rw [h1, h2, join_chunksOf]
  exact ⟨rfl, rfl⟩

/-! ## Claim C1 -/

theorem unk_and_ne_tt (b : SQLB) : SQLB.and SQLB.unk b ≠ SQLB.tt := by
  cases b <;> decide

theorem or_ne_tt {a b : SQLB} (ha : a ≠ SQLB.tt) (hb : b ≠ SQLB.tt) :
    SQLB.or a b ≠ SQLB.tt := by
  cases a <;> cases b <;> simp_all [SQLB.or]

/-- With a NULL band parameter every disjunct of the seniority clause
compares NULL and cannot evaluate to SQL TRUE. -/
theorem bandCond_none_ne_tt (lvl : Option ℚ) : bandCond none lvl ≠ SQLB.tt := by
  unfold bandCond
  exact or_ne_tt (unk_and_ne_tt _)
    (or_ne_tt (unk_and_ne_tt _)
      (or_ne_tt (unk_and_ne_tt _)
        (or_ne_tt (unk_and_ne_tt _) (unk_and_ne_tt _))))

theorem eligibleRow_writer_band_none (mt : Option String) (c : Creative)
    (d f : Bool) :
    eligibleRow mt c
      { is_writer := true, is_director := d, require_feature := f,
        writer_band := none } = false := by
  unfold eligibleRow
  by_contra h
  rw [Bool.not_eq_false] at h
  have htt := (SQLB.isTrue_iff _).mp h
  unfold candidateCond at htt
  rcases (SQLB.and_eq_tt_iff _ _).mp htt with ⟨_, h2⟩
  rcases (SQLB.and_eq_tt_iff _ _).mp h2 with ⟨_, h3⟩
  rcases (SQLB.and_eq_tt_iff _ _).mp h3 with ⟨_, h4⟩
  rcases (SQLB.and_eq_tt_iff _ _).mp h4 with ⟨_, h5⟩
  rcases (SQLB.and_eq_tt_iff _ _).mp h5 with ⟨_, h6⟩
  rcases (SQLB.or_eq_tt_iff _ _).mp h6 with h7 | h7
  · simp [SQLB.ofBool] at h7
  · exact bandCond_none_ne_tt c.writer_level h7

/-- C1 (corrected): for every qualification label that starts with
"Writer" but ends with none of the recognized band suffixes,
`parse_qualifications` yields `band = none`; the Eligibility Filter,
however, does NOT treat this as "no seniority constraint": under SQL
three-valued logic the NULL band parameter makes the seniority
disjunction non-TRUE for every row, so every person is excluded and the
candidate set is empty, whatever the person's remaining attributes. -/
theorem C1_unmatched_writer_band_excludes_all (lbl : String)
    (hw : strStartsWith (strTrim lbl) "Writer" = true)
    (h1 : strEndsWith (strTrim lbl) "(Upper)" = false)
    (h2 : strEndsWith (strTrim lbl) "(Mid - Upper)" = false)
    (h3 : strEndsWith (strTrim lbl) "(Mid)" = false)
    (h4 : strEndsWith (strTrim lbl) "(Low - Mid)" = false)
    (h5 : strEndsWith (strTrim lbl) "(Low)" = false) :
    (parse_qualifications (some lbl)).writer_band = none ∧
    (parse_qualifications (some lbl)).is_writer = true ∧
    (∀ (mt : Option String) (c : Creative),
      eligibleRow mt c (parse_qualifications (some lbl)) = false) ∧
    ∀ (mt : Option String) (creatives : List Creative),
      get_filtered_candidates creatives mt (parse_qualifications (some lbl)) = [] := by
  have hq : parse_qualifications (some lbl) =
      { is_writer := true,
        is_director := strStartsWith (strTrim lbl) "Director",
        require_feature := strEndsWith (strTrim lbl) "(Has Directed Feature)",
        writer_band := none } := by
    unfold parse_qualifications
    simp [hw, h1, h2, h3, h4, h5]
  rw [hq]
  refine ⟨rfl, rfl, ?_, ?_⟩
  · intro mt c
    exact eligibleRow_writer_band_none mt c _ _
  · intro mt creatives
    unfold get_filtered_candidates
    rw [List.filter_eq_nil_iff.mpr, List.map_nil]
    intro c _
    rw [eligibleRow_writer_band_none mt c _ _]
    exact Bool.false_ne_true

/-- A concrete creative satisfying every rule except the impossible
seniority clause: an active client, TV-acceptable, a writer of level 5. -/
def c1Creative : Creative :=
  { id := "cr1", name := "A Writer", client_status := some "client",
    availability := some "available", tv_acceptable := some true,
    is_director := some false, is_writer := some true,
    writer_level := some 5, has_directed_feature := some false }

theorem C1_unmatched_writer_band_excludes_all_witness :
    (parse_qualifications (some "Writer (Any)")).writer_band = none ∧
    (parse_qualifications (some "Writer (Any)")).is_writer = true ∧
    eligibleRow (some "TV Series") c1Creative
      (parse_qualifications (some "Writer (Any)")) = false ∧
    get_filtered_candidates [c1Creative] (some "TV Series")
      (parse_qualifications (some "Writer (Any)")) = [] := by
  have h := C1_unmatched_writer_band_excludes_all "Writer (Any)"
    (by decide) (by decide) (by decide) (by decide) (by decide) (by decide)
  exact ⟨h.1, h.2.1, h.2.2.1 (some "TV Series") c1Creative,
    h.2.2.2 (some "TV Series") [c1Creative]⟩

/-- Counterexample to C1 as stated: the label "Writer (Any)" parses to
`band = none`, and the concrete person `c1Creative` satisfies all the
remaining rules (active client, TV-acceptable for a TV-series project,
`is_writer`), yet the filter excludes them — the candidate set is empty
instead of unconstrained. -/
theorem C1_counterexample :
    (parse_qualifications (some "Writer (Any)")).writer_band = none ∧
    remainingRulesOK (some "TV Series") c1Creative = true ∧
    eligibleRow (some "TV Series") c1Creative
      (parse_qualifications (some "Writer (Any)")) = false ∧
    get_filtered_candidates [c1Creative] (some "TV Series")
      (parse_qualifications (some "Writer (Any)")) = [] := by decide

/-! ## Claim C9 -/

/-- A writer with seniority score exactly 6, satisfying the
non-seniority rules for a Feature project. -/
def c9Creative : Creative :=
  { id := "cr6", name := "Level Six", client_status := some "client",
    availability := some "available", tv_acceptable := some true,
    is_director := some false, is_writer := some true,
    writer_level := some 6, has_directed_feature := some false }

/-- C9: a person whose writer seniority score equals exactly 6 passes
the eligibility band check for openings banded "upper", "mid_upper" and
"mid" simultaneously, and symmetrically the reverse pipeline's
staff-writer bucket expansion at score 6 contains the labels of the
upper, mid-upper and mid bands. -/
theorem C9_band_overlap_at_six :
    (parse_qualifications (some "Writer (Upper)")).writer_band = some "upper" ∧
    (parse_qualifications (some "Writer (Mid - Upper)")).writer_band = some "mid_upper" ∧
    (parse_qualifications (some "Writer (Mid)")).writer_band = some "mid" ∧
    eligibleRow (some "Feature") c9Creative
      (parse_qualifications (some "Writer (Upper)")) = true ∧
    eligibleRow (some "Feature") c9Creative
      (parse_qualifications (some "Writer (Mid - Upper)")) = true ∧
    eligibleRow (some "Feature") c9Creative
      (parse_qualifications (some "Writer (Mid)")) = true ∧
    "Writer (Upper)" ∈ writer_quals_for_level (some 6) ∧
    "Writer (Mid - Upper)" ∈ writer_quals_for_level (some 6) ∧
    "Writer (Mid)" ∈ writer_quals_for_level (some 6) := by decide

/-! ## Claim C10 -/

/-- C10: the reverse pipeline treats empty filter lists as selecting all
four media types and all four role buckets: a request with empty lists
is indistinguishable (result and cache write included) from one listing
every media type and every bucket. -/
theorem C10_empty_filters_select_everything (db : ReverseDB) (cid : String)
    (lim : Nat) (inc : Bool) :
    run_reverse_pipeline db cid [] [] lim inc =
      run_reverse_pipeline db cid MEDIA_ORDER QUAL_ORDER lim inc := by
  unfold run_reverse_pipeline
  simp [MEDIA_ORDER, QUAL_ORDER]

/-! ## Claim C6 -/

theorem contains_congr_of_set_eq {l1 l2 : List String}
    (h12 : ∀ x ∈ l1, x ∈ l2) (h21 : ∀ x ∈ l2, x ∈ l1) (a : String) :
    l1.contains a = l2.contains a := by
  rw [List.contains_eq_any_beq, List.contains_eq_any_beq]
  cases ha : l1.any (a == ·) with
  | true =>
    rcases List.any_eq_true.mp ha with ⟨x, hx, hbeq⟩
    exact (List.any_eq_true.mpr ⟨x, h12 x hx, hbeq⟩).symm
  | false =>
    cases hb : l2.any (a == ·) with
    | true =>
      rcases List.any_eq_true.mp hb with ⟨x, hx, hbeq⟩
      exact absurd (List.any_eq_true.mpr ⟨x, h21 x hx, hbeq⟩) (by rw [ha]; decide)
    | false => rfl

theorem canonical_media_list_set_eq {l1 l2 : List String}
    (h12 : ∀ x ∈ l1, x ∈ l2) (h21 : ∀ x ∈ l2, x ∈ l1) :
    canonical_media_list l1 = canonical_media_list l2 := by
  unfold canonical_media_list
  exact List.filter_congr (fun m _ => contains_congr_of_set_eq h12 h21 m)

theorem canonical_qual_list_set_eq {l1 l2 : List String}
    (h12 : ∀ x ∈ l1, x ∈ l2) (h21 : ∀ x ∈ l2, x ∈ l1) :
    canonical_qual_list l1 = canonical_qual_list l2 := by
  unfold canonical_qual_list
  exact List.filter_congr (fun m _ => contains_congr_of_set_eq h12 h21 m)

theorem isEmpty_congr_of_set_eq {l1 l2 : List String}
    (h12 : ∀ x ∈ l1, x ∈ l2) (h21 : ∀ x ∈ l2, x ∈ l1) :
    l1.isEmpty = l2.isEmpty := by
  cases l1 with
  | nil =>
    cases l2 with
    | nil => rfl
    | cons b bs => exact absurd (h21 b (List.mem_cons_self b bs)) (by simp)
  | cons a as =>
    cases l2 with
    | nil => exact absurd (h12 a (List.mem_cons_self a as)) (by simp)
    | cons b bs => rfl

/-- C6: two media-type filter lists and two qualification-bucket filter
lists that are equal as sets canonicalize to the same fixed-order lists,
and the two reverse-pipeline requests they induce are fully
interchangeable: same result and same cache write (hence the same cache
key and row). -/
theorem C6_canonicalization_set_invariant (m1 m2 q1 q2 : List String)
    (hm12 : ∀ x ∈ m1, x ∈ m2) (hm21 : ∀ x ∈ m2, x ∈ m1)
    (hq12 : ∀ x ∈ q1, x ∈ q2) (hq21 : ∀ x ∈ q2, x ∈ q1) :
    canonical_media_list m1 = canonical_media_list m2 ∧
    canonical_qual_list q1 = canonical_qual_list q2 ∧
    ∀ (db : ReverseDB) (cid : String) (lim : Nat) (inc : Bool),
      run_reverse_pipeline db cid m1 q1 lim inc =
        run_reverse_pipeline db cid m2 q2 lim inc := by
  have hm : canonical_media_list (if m1.isEmpty then MEDIA_ORDER else m1) =
      canonical_media_list (if m2.isEmpty then MEDIA_ORDER else m2) := by
    rw [isEmpty_congr_of_set_eq hm12 hm21]
    cases m2.isEmpty with
    | true => simp
    | false => simpa using canonical_media_list_set_eq hm12 hm21
  have hq : canonical_qual_list (if q1.isEmpty then QUAL_ORDER else q1) =
      canonical_qual_list (if q2.isEmpty then QUAL_ORDER else q2) := by
    rw [isEmpty_congr_of_set_eq hq12 hq21]
    cases q2.isEmpty with
    | true => simp
    | false => simpa using canonical_qual_list_set_eq hq12 hq21
  refine ⟨canonical_media_list_set_eq hm12 hm21, canonical_qual_list_set_eq hq12 hq21, ?_⟩
  intro db cid lim inc
  unfold run_reverse_pipeline
  simp only [hm, hq]

def c6Db : ReverseDB :=
  { creatives := [c9Creative], embedded := ["cr6"],
    needRows := fun _ => [], revCache := [], genJust := fun _ => "", now := 0 }

theorem C6_canonicalization_set_invariant_witness :
    canonical_media_list ["TV Series", "Feature", "Feature"] =
      canonical_media_list ["Feature", "TV Series"] ∧
    canonical_qual_list ["Director", "OWA"] =
      canonical_qual_list ["OWA", "Director", "OWA"] ∧
    run_reverse_pipeline c6Db "cr6" ["TV Series", "Feature", "Feature"]
        ["Director", "OWA"] 30 true =
      run_reverse_pipeline c6Db "cr6" ["Feature", "TV Series"]
        ["OWA", "Director", "OWA"] 30 true := by
  have h := C6_canonicalization_set_invariant
    ["TV Series", "Feature", "Feature"] ["Feature", "TV Series"]
    ["Director", "OWA"] ["OWA", "Director", "OWA"]
    (by decide) (by decide) (by decide) (by decide)
  exact ⟨h.1, h.2.1, h.2.2 c6Db "cr6" 30 true⟩

/-! ## Claim C2 -/

/-- C2: for every similarity pool, availability map and feedback map,
the primary list is the first 10 rows of the pool sorted by score
descending — where the sort is pinned down as THE stable descending sort
by the permutation, sortedness, per-score filter preservation (ties keep
pool order) and uniqueness conjuncts — and the honorable mentions are
the first at-most-5 rows from rank 11 onward whose feedback has
`any_positive`, in the same order; they never number more than 5 and
(for a pool without duplicate ids) never repeat a top-10 entry. -/
theorem C2_rank_top10_honorable (knn : List KnnRow)
    (am : String → Option String) (fm : String → Option FeedbackSummary)
    (hnd : (knn.map (fun r => r.creative_id)).Nodup) :
    (rank_with_flags knn am fm).1 =
        (sortDesc (fun r => r.score) (knn.map (mkRankedRow am fm))).take 10 ∧
    (rank_with_flags knn am fm).2 =
        (((sortDesc (fun r => r.score) (knn.map (mkRankedRow am fm))).drop 10).filter
          (fun r => r.feedback_summary.any_positive)).take 5 ∧
    List.Perm (sortDesc (fun r => r.score) (knn.map (mkRankedRow am fm)))
        (knn.map (mkRankedRow am fm)) ∧
    (sortDesc (fun r => r.score) (knn.map (mkRankedRow am fm))).Pairwise
        (fun a b => b.score ≤ a.score) ∧
    (∀ s : ℚ,
      (sortDesc (fun r => r.score) (knn.map (mkRankedRow am fm))).filter
          (fun r => decide (r.score = s)) =
        (knn.map (mkRankedRow am fm)).filter (fun r => decide (r.score = s))) ∧
    (∀ l : List RankedRow,
        List.Perm l (knn.map (mkRankedRow am fm)) →
        l.Pairwise (fun a b => b.score ≤ a.score) →
        (∀ s : ℚ, l.filter (fun r => decide (r.score = s)) =
          (knn.map (mkRankedRow am fm)).filter (fun r => decide (r.score = s))) →
        l = sortDesc (fun r => r.score) (knn.map (mkRankedRow am fm))) ∧
    (rank_with_flags knn am fm).2.length ≤ 5 ∧
    ∀ hm ∈ (rank_with_flags knn am fm).2, ∀ tp ∈ (rank_with_flags knn am fm).1,
      hm.creative_id ≠ tp.creative_id := by
  refine ⟨rfl, rfl, sortDesc_perm _ _, sortDesc_sorted _ _, sortDesc_filter _ _, ?_, ?_, ?_⟩
  · intro l hperm hsort hfilt
    exact stable_sort_unique _ l _
      (hperm.trans (sortDesc_perm (fun r : RankedRow => r.score) _).symm) hsort
      (sortDesc_sorted _ _)
      (fun s => (hfilt s).trans
        (sortDesc_filter (fun r : RankedRow => r.score) _ s).symm)
  · exact List.length_take_le 5 _
  · have hmapid : (knn.map (mkRankedRow am fm)).map (fun r => r.creative_id) =
        knn.map (fun r => r.creative_id) := by
      rw [List.map_map]; rfl
    have hndrows :
        ((knn.map (mkRankedRow am fm)).map (fun r => r.creative_id)).Nodup := by
      rw [hmapid]; exact hnd
    have hnds :
        ((sortDesc (fun r => r.score) (knn.map (mkRankedRow am fm))).map
          (fun r => r.creative_id)).Nodup :=
      (((sortDesc_perm (fun r : RankedRow => r.score) _).map
        (fun r => r.creative_id)).nodup_iff).mpr hndrows
    have hsplit :
        (sortDesc (fun r => r.score) (knn.map (mkRankedRow am fm))).map
            (fun r => r.creative_id) =
          ((sortDesc (fun r => r.score) (knn.map (mkRankedRow am fm))).take 10).map
              (fun r => r.creative_id) ++
            ((sortDesc (fun r => r.score) (knn.map (mkRankedRow am fm))).drop 10).map
              (fun r => r.creative_id) := by
      rw [← List.map_append, List.take_append_drop]
    rw [hsplit] at hnds
    have hdisj := List.disjoint_of_nodup_append hnds
    intro hm hhm tp htp heq
    have hm1 : hm ∈ ((sortDesc (fun r => r.score)
        (knn.map (mkRankedRow am fm))).drop 10).filter
          (fun r => r.feedback_summary.any_positive) := List.mem_of_mem_take hhm
    have hm2 : hm ∈ (sortDesc (fun r => r.score)
        (knn.map (mkRankedRow am fm))).drop 10 := List.mem_of_mem_filter hm1
    have hcid1 : hm.creative_id ∈ ((sortDesc (fun r => r.score)
        (knn.map (mkRankedRow am fm))).drop 10).map (fun r => r.creative_id) :=
      List.mem_map_of_mem _ hm2
    have hcid2 : tp.creative_id ∈ ((sortDesc (fun r => r.score)
        (knn.map (mkRankedRow am fm))).take 10).map (fun r => r.creative_id) :=
      List.mem_map_of_mem _ htp
    rw [heq] at hcid1
    exact hdisj hcid2 hcid1

def c2Knn : List KnnRow :=
  [⟨"a", 7⟩, ⟨"b", 9⟩, ⟨"c", 7⟩, ⟨"d", 3⟩, ⟨"e", 9⟩, ⟨"f", 5⟩,
   ⟨"g", 8⟩, ⟨"h", 2⟩, ⟨"i", 6⟩, ⟨"j", 4⟩, ⟨"k", 1⟩, ⟨"l", 7⟩]

def c2Fb : String → Option FeedbackSummary := fun cid =>
  if cid = "k" ∨ cid = "h" then
    some { any_positive := true, any_non_positive := false,
           has_subs_to_staffing := true, has_subs_no_feedback := false,
           events := [] }
  else none

theorem C2_rank_top10_honorable_witness :
    (rank_with_flags c2Knn (fun _ => none) c2Fb).2.length ≤ 5 ∧
    (∀ hm ∈ (rank_with_flags c2Knn (fun _ => none) c2Fb).2,
      ∀ tp ∈ (rank_with_flags c2Knn (fun _ => none) c2Fb).1,
        hm.creative_id ≠ tp.creative_id) ∧
    (rank_with_flags c2Knn (fun _ => none) c2Fb).1 =
      (sortDesc (fun r => r.score) (c2Knn.map (mkRankedRow (fun _ => none) c2Fb))).take 10 := by
  obtain ⟨h1, _, _, _, _, _, h7, h8⟩ :=
    C2_rank_top10_honorable c2Knn (fun _ => none) c2Fb (by decide)
  exact ⟨h7, h8, h1⟩

/-! ## Claim C3 -/

theorem foldlMax_spec (rs : List NeedRow) (init : NeedRow) :
    ((rs.foldl (fun b x => if b.sim < x.sim then x else b) init) = init ∨
      (rs.foldl (fun b x => if b.sim < x.sim then x else b) init) ∈ rs) ∧
    init.sim ≤ (rs.foldl (fun b x => if b.sim < x.sim then x else b) init).sim ∧
    ∀ x ∈ rs, x.sim ≤ (rs.foldl (fun b x => if b.sim < x.sim then x else b) init).sim := by
  induction rs generalizing init with
  | nil => exact ⟨Or.inl rfl, le_refl _, by simp⟩
  | cons y ys ih =>
    rw [List.foldl_cons]
    by_cases h : init.sim < y.sim
    · rw [if_pos h]
      rcases ih y with ⟨hmem, hle, hall⟩
      refine ⟨?_, le_trans (le_of_lt h) hle, ?_⟩
      · rcases hmem with hmem | hmem
        · exact Or.inr (by rw [hmem]; exact List.mem_cons_self y ys)
        · exact Or.inr (List.mem_cons_of_mem y hmem)
      · intro x hx
        rcases List.mem_cons.mp hx with rfl | hx
        · exact hle
        · exact hall x hx
    · rw [if_neg h]
      rcases ih init with ⟨hmem, hle, hall⟩
      refine ⟨?_, hle, ?_⟩
      · rcases hmem with hmem | hmem
        · exact Or.inl hmem
        · exact Or.inr (List.mem_cons_of_mem y hmem)
      · intro x hx
        rcases List.mem_cons.mp hx with rfl | hx
        · exact le_trans (le_of_not_lt h) hle
        · exact hall x hx

theorem maxSimRow_mem {rows : List NeedRow} {r : NeedRow}
    (h : maxSimRow rows = some r) : r ∈ rows := by
  cases rows with
  | nil => simp [maxSimRow] at h
  | cons y ys =>
    rcases (foldlMax_spec ys y).1 with hm | hm
    · unfold maxSimRow at h
      rw [Option.some_inj] at h
      rw [← h, hm]
      exact List.mem_cons_self y ys
    · unfold maxSimRow at h
      rw [Option.some_inj] at h
      rw [← h]
      exact List.mem_cons_of_mem y hm

theorem maxSimRow_max {rows : List NeedRow} {r : NeedRow}
    (h : maxSimRow rows = some r) : ∀ x ∈ rows, x.sim ≤ r.sim := by
  cases rows with
  | nil => simp [maxSimRow] at h
  | cons y ys =>
    unfold maxSimRow at h
    rw [Option.some_inj] at h
    intro x hx
    rcases List.mem_cons.mp hx with rfl | hx
    · rw [← h]; exact (foldlMax_spec ys x).2.1
    · rw [← h]; exact (foldlMax_spec ys y).2.2 x hx

theorem insertAscStr_perm (x : String) (l : List String) :
    List.Perm (insertAscStr x l) (x :: l) := by
  induction l with
  | nil => exact List.Perm.refl _
  | cons y ys ih =>
    by_cases h : x ≤ y
    · rw [insertAscStr, if_pos h]
    · rw [insertAscStr, if_neg h]
      exact ((ih.cons y).trans (List.Perm.swap x y ys))

theorem sortAscStr_perm (l : List String) : List.Perm (sortAscStr l) l := by
  induction l with
  | nil => exact List.Perm.refl _
  | cons x xs ih => exact (insertAscStr_perm x (sortAscStr xs)).trans (ih.cons x)

theorem map_project_filterMap_sublist (f : String → Option NeedRow)
    (hf : ∀ pid r, f pid = some r → r.project_id = pid) (L : List String) :
    List.Sublist ((L.filterMap f).map (fun r => r.project_id)) L := by
  induction L with
  | nil => simp
  | cons a L ih =>
    rw [List.filterMap_cons]
    cases hfa : f a with
    | none => exact ih.cons a
    | some r =>
      rw [List.map_cons, hf a r hfa]
      exact ih.cons₂ a

/-- The rows kept by `distinctOnProject` carry pairwise-distinct project
ids. -/
theorem distinctOnProject_nodup (rows : List NeedRow) :
    ((distinctOnProject rows).map (fun r => r.project_id)).Nodup := by
  have hnd : (sortAscStr (rows.map (fun r => r.project_id)).dedup).Nodup :=
    ((sortAscStr_perm _).nodup_iff).mpr (List.nodup_dedup _)
  refine List.Sublist.nodup ?_ hnd
  refine map_project_filterMap_sublist _ ?_ _
  intro pid r h
  have hmem := maxSimRow_mem h
  exact of_decide_eq_true (List.mem_filter.mp hmem).2

/-- Every row kept by `distinctOnProject` is one of the input rows and
has maximal similarity among the input rows of its project. -/
theorem distinctOnProject_max (rows : List NeedRow) (e : NeedRow)
    (he : e ∈ distinctOnProject rows) :
    e ∈ rows ∧ ∀ x ∈ rows, x.project_id = e.project_id → x.sim ≤ e.sim := by
  rcases List.mem_filterMap.mp he with ⟨pid, _, hmax⟩
  have hmem := maxSimRow_mem hmax
  have hsplit := List.mem_filter.mp hmem
  have hpid : e.project_id = pid := of_decide_eq_true hsplit.2
  refine ⟨hsplit.1, ?_⟩
  intro x hx hxe
  refine maxSimRow_max hmax x (List.mem_filter.mpr ⟨hx, ?_⟩)
  exact decide_eq_true (hxe.trans hpid)

/-- Canonical filter triple computed by steps 1 of `run_reverse_pipeline`
(after the empty-list fallback). -/
def revCanonFilters (mf qf : List String) (inc : Bool) : RevFilters :=
  { media_type_filter := canonical_media_list (if mf.isEmpty then MEDIA_ORDER else mf),
    qualifications_filter := canonical_qual_list (if qf.isEmpty then QUAL_ORDER else qf),
    include_archived := inc }

/-- The `Q_RANK` base rows for a request: the join rows passing the
WHERE clause with the request's expanded filters. -/
def revFilteredRows (db : ReverseDB) (cid : String) (c : Creative)
    (mf qf : List String) (inc : Bool) : List NeedRow :=
  (db.needRows cid).filter
    (revWherePred inc
      (booleans_for_media (canonical_media_list (if mf.isEmpty then MEDIA_ORDER else mf)))
      ((canonical_qual_list (if qf.isEmpty then QUAL_ORDER else qf)).contains "OWA")
      ((canonical_qual_list (if qf.isEmpty then QUAL_ORDER else qf)).contains "ODA")
      ((canonical_qual_list (if qf.isEmpty then QUAL_ORDER else qf)).contains "Staff Writer")
      ((canonical_qual_list (if qf.isEmpty then QUAL_ORDER else qf)).contains "Director")
      (writer_quals_for_level c.writer_level) (director_quals c.has_directed_feature))

/-- Main-branch equation of `run_reverse_pipeline`: when the creative
exists and has an embedding, the result is the enriched top-`lim` of the
similarity-sorted deduplicated rows, and the cache receives it. -/
theorem run_reverse_pipeline_found (db : ReverseDB) (cid : String)
    (mf qf : List String) (lim : Nat) (inc : Bool) (c : Creative)
    (hfind : db.creatives.find? (fun x => decide (x.id = cid)) = some c)
    (hemb : db.embedded.contains cid = true) :
    run_reverse_pipeline db cid mf qf lim inc =
      (let scored := sortDesc (fun e => e.sim)
        ((distinctOnProject (revFilteredRows db cid c mf qf inc)).map shapeRevEntry)
       let ranked := (scored.take lim).map
        (fun e => { e with justification := some (db.genJust e.project_id) })
       let result : RevResult :=
        { creative_id := cid, filters := some (revCanonFilters mf qf inc),
          ranked := ranked, considered_count := some scored.length,
          model := some "vector-cosine" }
       (result,
        { db with revCache :=
            upsertRow db.revCache (cid, revCanonFilters mf qf inc) result db.now })) := by
  unfold run_reverse_pipeline revFilteredRows revCanonFilters
  rw [hfind, hemb]
  rfl

/-- C3: for every person and filter set (person found and embedded), the
reverse pipeline's ranked output has at most one entry per project id;
each entry is one of the filtered join rows of its project with maximal
similarity among them; the output is ordered by similarity descending
and is the enriched top-`lim` truncation of the similarity-sorted
deduplicated rows. -/
theorem C3_reverse_dedup_best_per_project (db : ReverseDB) (cid : String)
    (mf qf : List String) (lim : Nat) (inc : Bool) (c : Creative)
    (hfind : db.creatives.find? (fun x => decide (x.id = cid)) = some c)
    (hemb : db.embedded.contains cid = true) :
    (((run_reverse_pipeline db cid mf qf lim inc).1.ranked.map
        (fun e => e.project_id)).Nodup) ∧
    (∀ e ∈ (run_reverse_pipeline db cid mf qf lim inc).1.ranked,
      (∃ r ∈ revFilteredRows db cid c mf qf inc,
        r.need_id = e.need_id ∧ r.project_id = e.project_id ∧ r.sim = e.sim) ∧
      ∀ r ∈ revFilteredRows db cid c mf qf inc,
        r.project_id = e.project_id → r.sim ≤ e.sim) ∧
    (run_reverse_pipeline db cid mf qf lim inc).1.ranked.Pairwise
        (fun a b => b.sim ≤ a.sim) ∧
    (run_reverse_pipeline db cid mf qf lim inc).1.ranked.length ≤ lim ∧
    (run_reverse_pipeline db cid mf qf lim inc).1.ranked =
      ((sortDesc (fun e => e.sim)
          ((distinctOnProject (revFilteredRows db cid c mf qf inc)).map
            shapeRevEntry)).take lim).map
        (fun e => { e with justification := some (db.genJust e.project_id) }) := by
  have heq : (run_reverse_pipeline db cid mf qf lim inc).1.ranked =
      ((sortDesc (fun e => e.sim)
          ((distinctOnProject (revFilteredRows db cid c mf qf inc)).map
            shapeRevEntry)).take lim).map
        (fun e => { e with justification := some (db.genJust e.project_id) }) := by
    rw [run_reverse_pipeline_found db cid mf qf lim inc c hfind hemb]
  refine ⟨?_, ?_, ?_, ?_, heq⟩
  · rw [heq]
    have hpe : (((sortDesc (fun e => e.sim)
        ((distinctOnProject (revFilteredRows db cid c mf qf inc)).map
          shapeRevEntry)).take lim).map
        (fun e => { e with justification := some (db.genJust e.project_id) })).map
          (fun e => e.project_id) =
        ((sortDesc (fun e => e.sim)
          ((distinctOnProject (revFilteredRows db cid c mf qf inc)).map
            shapeRevEntry)).take lim).map (fun e => e.project_id) := by
      rw [List.map_map]; rfl
    rw [hpe, List.map_take]
    refine List.Nodup.sublist (List.take_sublist _ _) ?_
    have hps : ((sortDesc (fun e => e.sim)
        ((distinctOnProject (revFilteredRows db cid c mf qf inc)).map
          shapeRevEntry)).map (fun e => e.project_id)).Nodup := by
      refine (((sortDesc_perm (fun e : RevEntry => e.sim) _).map
        (fun e => e.project_id)).nodup_iff).mpr ?_
      rw [List.map_map]
      exact distinctOnProject_nodup (revFilteredRows db cid c mf qf inc)
    exact hps
  · intro e he
    rw [heq] at he
    rcases List.mem_map.mp he with ⟨e1, he1, rfl⟩
    have he2 : e1 ∈ sortDesc (fun e => e.sim)
        ((distinctOnProject (revFilteredRows db cid c mf qf inc)).map shapeRevEntry) :=
      List.mem_of_mem_take he1
    have he3 : e1 ∈ (distinctOnProject (revFilteredRows db cid c mf qf inc)).map
        shapeRevEntry :=
      ((sortDesc_perm (fun e : RevEntry => e.sim) _).mem_iff).mp he2
    rcases List.mem_map.mp he3 with ⟨r0, hr0, rfl⟩
    rcases distinctOnProject_max _ r0 hr0 with ⟨hr0mem, hr0max⟩
    exact ⟨⟨r0, hr0mem, rfl, rfl, rfl⟩, fun r hr hpr => hr0max r hr hpr⟩
  · rw [heq]
    rw [List.pairwise_map]
    refine List.Pairwise.sublist (List.take_sublist _ _) ?_
    exact sortDesc_sorted (fun e : RevEntry => e.sim) _
  · rw [heq, List.length_map]
    exact List.length_take_le lim _

def c3Rows : List NeedRow :=
  [{ need_id := "n1", project_id := "p1", project_title := "T1",
     media_type := some "Feature", need_status := "Active",
     tracking_status := some "Tracking", qualifications := some "OWA", sim := 1 },
   { need_id := "n2", project_id := "p1", project_title := "T1",
     media_type := some "Feature", need_status := "Active",
     tracking_status := some "Tracking", qualifications := some "OWA", sim := 3 },
   { need_id := "n3", project_id := "p2", project_title := "T2",
     media_type := some "Feature", need_status := "Active",
     tracking_status := some "Tracking", qualifications := some "OWA", sim := 2 }]

def c3Db : ReverseDB :=
  { creatives := [c9Creative], embedded := ["cr6"],
    needRows := fun _ => c3Rows, revCache := [], genJust := fun _ => "ok", now := 5 }

theorem C3_reverse_dedup_best_per_project_witness :
    (((run_reverse_pipeline c3Db "cr6" [] [] 30 true).1.ranked.map
        (fun e => e.project_id)).Nodup) ∧
    (run_reverse_pipeline c3Db "cr6" [] [] 30 true).1.ranked.Pairwise
        (fun a b => b.sim ≤ a.sim) ∧
    (run_reverse_pipeline c3Db "cr6" [] [] 30 true).1.ranked.length ≤ 30 := by
  obtain ⟨h1, _, h3, h4, _⟩ :=
    C3_reverse_dedup_best_per_project c3Db "cr6" [] [] 30 true c9Creative
      (by decide) (by decide)
  exact ⟨h1, h3, h4⟩

/-! ## Claim C5 -/

theorem countKey_map_replace [DecidableEq κ] (t : List (CacheRow κ ρ)) (k : κ)
    (r : ρ) (now : Nat) :
    countKey (t.map (fun row => if row.key = k then
      { row with results := r, run_started_at := now } else row)) k = countKey t k := by
  unfold countKey
  induction t with
  | nil => rfl
  | cons a t ih =>
    rw [List.map_cons]
    by_cases ha : a.key = k
    · rw [if_pos ha, List.filter_cons, List.filter_cons]
      have h1 : decide (({ a with results := r, run_started_at := now } :
          CacheRow κ ρ).key = k) = true := decide_eq_true ha
      rw [h1]
      simp [ih]
    · rw [if_neg ha, List.filter_cons, List.filter_cons]
      have h2 : decide (a.key = k) = false := decide_eq_false ha
      rw [h2]
      exact ih

theorem countKey_upsertRow [DecidableEq κ] (t : List (CacheRow κ ρ)) (k : κ)
    (r : ρ) (now : Nat) :
    countKey (upsertRow t k r now) k = max 1 (countKey t k) := by
  unfold upsertRow
  by_cases h : t.any (fun row => decide (row.key = k)) = true
  · rw [if_pos h, countKey_map_replace]
    rcases List.any_eq_true.mp h with ⟨row, hrow, hd⟩
    have hpos : 0 < countKey t k := by
      unfold countKey
      exact List.length_pos_of_mem (List.mem_filter.mpr ⟨hrow, hd⟩)
    omega
  · rw [if_neg h]
    have hnil : List.filter (fun row => decide (row.key = k)) t = [] := by
      rw [List.filter_eq_nil_iff]
      intro row hrow hk2
      exact h (List.any_eq_true.mpr ⟨row, hrow, by simpa using hk2⟩)
    unfold countKey
    rw [List.filter_append, hnil]
    simp

theorem lookupKey_map_replace [DecidableEq κ] (t : List (CacheRow κ ρ)) (k : κ)
    (r : ρ) (now : Nat) (h : t.any (fun row => decide (row.key = k)) = true) :
    lookupKey (t.map (fun row => if row.key = k then
      { row with results := r, run_started_at := now } else row)) k =
      some { key := k, results := r, run_started_at := now } := by
  unfold lookupKey
  induction t with
  | nil => simp at h
  | cons a t ih =>
    rw [List.map_cons]
    by_cases ha : a.key = k
    · rw [if_pos ha, List.find?_cons]
      have hd : decide (({ a with results := r, run_started_at := now } :
          CacheRow κ ρ).key = k) = true := decide_eq_true ha
      rw [hd]
      cases a
      simp_all
    · rw [if_neg ha, List.find?_cons]
      have hd : decide (a.key = k) = false := decide_eq_false ha
      rw [hd]
      rw [List.any_cons] at h
      simp only [hd, Bool.false_or] at h
      exact ih h

theorem lookupKey_append_new [DecidableEq κ] (t : List (CacheRow κ ρ)) (k : κ)
    (r : ρ) (now : Nat) (h : t.any (fun row => decide (row.key = k)) = false) :
    lookupKey (t ++ [{ key := k, results := r, run_started_at := now }]) k =
      some { key := k, results := r, run_started_at := now } := by
  unfold lookupKey
  induction t with
  | nil => simp [List.find?]
  | cons a t ih =>
    rw [List.any_cons, Bool.or_eq_false_iff] at h
    rw [List.cons_append, List.find?_cons, h.1]
    exact ih h.2

theorem lookupKey_upsertRow [DecidableEq κ] (t : List (CacheRow κ ρ)) (k : κ)
    (r : ρ) (now : Nat) :
    lookupKey (upsertRow t k r now) k =
      some { key := k, results := r, run_started_at := now } := by
  unfold upsertRow
  by_cases h : t.any (fun row => decide (row.key = k)) = true
  · rw [if_pos h]
    exact lookupKey_map_replace t k r now h
  · rw [if_neg h]
    have hfalse : t.any (fun row => decide (row.key = k)) = false := by
      cases ha2 : t.any (fun row => decide (row.key = k)) with
      | false => rfl
      | true => exact absurd ha2 h
    exact lookupKey_append_new t k r now hfalse

/-- Every branch of `run_pipeline` ends in exactly one upsert into
`need_recommendations`, keyed by the need id and the empty parameter
object. -/
theorem run_pipeline_cache_effect (db : ForwardDB) (nid : String) :
    (run_pipeline db nid).2.needCache =
      upsertRow db.needCache (nid, ([] : ForwardParams)) (run_pipeline db nid).1
        db.now := by
  unfold run_pipeline
  cases hf : db.needs.find? (fun n => decide (n.id = nid)) with
  | none => rfl
  | some n =>
    dsimp only
    split
    · rfl
    · rfl

/-- C5: the `ON CONFLICT DO UPDATE` upsert (shared by both caches)
replaces the existing row's payload and bumps its timestamp instead of
inserting; upserting the same key twice leaves exactly one row for that
key; and running the forward pipeline twice with an identical subject
(its parameter object is always the same empty object) leaves exactly
one cache row for that key. -/
theorem C5_upsert_replaces_not_duplicates {κ ρ : Type} [DecidableEq κ]
    (t : List (CacheRow κ ρ)) (k : κ) (r1 r2 : ρ) (t1 t2 : Nat) :
    (t.any (fun row => decide (row.key = k)) = true →
      (upsertRow t k r2 t2).length = t.length) ∧
    lookupKey (upsertRow t k r2 t2) k =
      some { key := k, results := r2, run_started_at := t2 } ∧
    (countKey t k ≤ 1 →
      countKey (upsertRow (upsertRow t k r1 t1) k r2 t2) k = 1) ∧
    ∀ (db : ForwardDB) (nid : String),
      countKey db.needCache (nid, ([] : ForwardParams)) ≤ 1 →
      countKey ((run_pipeline ((run_pipeline db nid).2) nid).2.needCache)
        (nid, ([] : ForwardParams)) = 1 := by
  refine ⟨?_, lookupKey_upsertRow t k r2 t2, ?_, ?_⟩
  · intro h
    unfold upsertRow
    rw [if_pos h, List.length_map]
  · intro h
    rw [countKey_upsertRow, countKey_upsertRow]
    omega
  · intro db nid h
    rw [run_pipeline_cache_effect, run_pipeline_cache_effect, countKey_upsertRow,
      countKey_upsertRow]
    omega

def c5Row : CacheRow (String × ForwardParams) ForwardResult :=
  { key := ("n1", []),
    results := { need_id := "n1", ranked := [], honorable_mentions := [] },
    run_started_at := 3 }

def c5FDb : ForwardDB :=
  { needs := [], projects := [], creatives := [], needEmb := [],
    knnF := fun _ _ => [], feedbackF := fun _ _ => none, justF := fun _ _ => "",
    needCache := [c5Row], now := 7 }

theorem C5_upsert_replaces_not_duplicates_witness :
    (upsertRow [c5Row] ("n1", ([] : ForwardParams))
        { need_id := "n1", ranked := [], honorable_mentions := [] } 9).length = 1 ∧
    countKey ((run_pipeline ((run_pipeline c5FDb "n1").2) "n1").2.needCache)
      ("n1", ([] : ForwardParams)) = 1 := by
  obtain ⟨h1, _, _, h4⟩ := C5_upsert_replaces_not_duplicates [c5Row]
    ("n1", ([] : ForwardParams))
    ({ need_id := "n1", ranked := [], honorable_mentions := [] } : ForwardResult)
    ({ need_id := "n1", ranked := [], honorable_mentions := [] } : ForwardResult) 9 9
  exact ⟨h1 (by decide), h4 c5FDb "n1" (by decide)⟩

/-! ## Claim C4 -/

/-- C4 (corrected): the forward pipeline short-circuits a missing
opening or an empty candidate set into a valid empty result that is
upserted into the cache (a `ForwardResult` carries no error field at
all, so neither outcome is an error); the reverse pipeline caches a
valid empty result when the filtered match set is empty, but — contrary
to the claim as stated — a missing person (or missing embedding) makes
it return an error-marked result and write nothing to the cache. -/
theorem C4_empty_outcomes (db : ForwardDB) (nid : String)
    (rdb : ReverseDB) (cid : String) (mf qf : List String) (lim : Nat)
    (inc : Bool) :
    (db.needs.find? (fun n => decide (n.id = nid)) = none →
      (run_pipeline db nid).1.ranked = [] ∧
      (run_pipeline db nid).1.honorable_mentions = [] ∧
      lookupKey ((run_pipeline db nid).2.needCache) (nid, ([] : ForwardParams)) =
        some { key := (nid, []), results := (run_pipeline db nid).1,
               run_started_at := db.now }) ∧
    (∀ n : NeedRec, db.needs.find? (fun x => decide (x.id = nid)) = some n →
      (match db.projects.find? (fun p => decide (p.id = n.project_id)) with
        | none => ([] : List (String × Option String))
        | some p => get_filtered_candidates db.creatives p.media_type
            (parse_qualifications n.qualifications)) = [] →
      (run_pipeline db nid).1.ranked = [] ∧
      (run_pipeline db nid).1.honorable_mentions = [] ∧
      lookupKey ((run_pipeline db nid).2.needCache) (nid, ([] : ForwardParams)) =
        some { key := (nid, []), results := (run_pipeline db nid).1,
               run_started_at := db.now }) ∧
    (rdb.creatives.find? (fun c => decide (c.id = cid)) = none →
      (run_reverse_pipeline rdb cid mf qf lim inc).1.ranked = [] ∧
      (run_reverse_pipeline rdb cid mf qf lim inc).1.error =
        some "Creative not found" ∧
      (run_reverse_pipeline rdb cid mf qf lim inc).2 = rdb) ∧
    (∀ c : Creative, rdb.creatives.find? (fun x => decide (x.id = cid)) = some c →
      rdb.embedded.contains cid = false →
      (run_reverse_pipeline rdb cid mf qf lim inc).1.ranked = [] ∧
      (run_reverse_pipeline rdb cid mf qf lim inc).1.error =
        some "No client embedding. Update AI Profile first." ∧
      (run_reverse_pipeline rdb cid mf qf lim inc).2 = rdb) ∧
    (∀ c : Creative, rdb.creatives.find? (fun x => decide (x.id = cid)) = some c →
      rdb.embedded.contains cid = true →
      revFilteredRows rdb cid c mf qf inc = [] →
      (run_reverse_pipeline rdb cid mf qf lim inc).1.ranked = [] ∧
      (run_reverse_pipeline rdb cid mf qf lim inc).1.error = none ∧
      lookupKey ((run_reverse_pipeline rdb cid mf qf lim inc).2.revCache)
          (cid, revCanonFilters mf qf inc) =
        some { key := (cid, revCanonFilters mf qf inc),
               results := (run_reverse_pipeline rdb cid mf qf lim inc).1,
               run_started_at := rdb.now }) := by
  refine ⟨?_, ?_, ?_, ?_, ?_⟩
  · intro hf
    have hcache := run_pipeline_cache_effect db nid
    have hres : (run_pipeline db nid).1 =
        { need_id := nid, ranked := [], honorable_mentions := [] } := by
      unfold run_pipeline
      rw [hf]
    refine ⟨by rw [hres], by rw [hres], ?_⟩
    rw [hcache]
    exact lookupKey_upsertRow _ _ _ _
  · intro n hf hc
    have hcache := run_pipeline_cache_effect db nid
    have hres : (run_pipeline db nid).1 =
        { need_id := nid, ranked := [], honorable_mentions := [] } := by
      unfold run_pipeline
      rw [hf]
      dsimp only
      rw [hc]
      rfl
    refine ⟨by rw [hres], by rw [hres], ?_⟩
    rw [hcache]
    exact lookupKey_upsertRow _ _ _ _
  · intro hf
    unfold run_reverse_pipeline
    rw [hf]
    exact ⟨rfl, rfl, rfl⟩
  · intro c hf hemb
    unfold run_reverse_pipeline
    rw [hf, hemb]
    exact ⟨rfl, rfl, rfl⟩
  · intro c hf hemb hrows
    have heq := run_reverse_pipeline_found rdb cid mf qf lim inc c hf hemb
    refine ⟨?_, ?_, ?_⟩
    · rw [heq, hrows]
      simp [distinctOnProject, sortAscStr, sortDesc]
    · rw [heq]
    · rw [heq, hrows]
      exact lookupKey_upsertRow _ _ _ _

def c4FDb : ForwardDB :=
  { needs := [], projects := [], creatives := [], needEmb := [],
    knnF := fun _ _ => [], feedbackF := fun _ _ => none, justF := fun _ _ => "",
    needCache := [], now := 0 }

def c4Need : NeedRec :=
  { id := "n1", project_id := "p1", qualifications := some "Writer (Any)" }

def c4FDb2 : ForwardDB :=
  { needs := [c4Need],
    projects := [{ id := "p1", media_type := some "Feature", tracking_status := some "Active" }],
    creatives := [c1Creative], needEmb := [],
    knnF := fun _ _ => [], feedbackF := fun _ _ => none, justF := fun _ _ => "",
    needCache := [], now := 0 }

def c4RDb : ReverseDB :=
  { creatives := [], embedded := [], needRows := fun _ => [],
    revCache := [], genJust := fun _ => "", now := 0 }

def c4RDb2 : ReverseDB :=
  { creatives := [c9Creative], embedded := [], needRows := fun _ => [],
    revCache := [], genJust := fun _ => "", now := 0 }

theorem C4_empty_outcomes_witness :
    ((run_pipeline c4FDb "nX").1.ranked = [] ∧
      (run_pipeline c4FDb "nX").1.honorable_mentions = []) ∧
    ((run_pipeline c4FDb2 "n1").1.ranked = [] ∧
      (run_pipeline c4FDb2 "n1").1.honorable_mentions = []) ∧
    (run_reverse_pipeline c4RDb "ghost" [] [] 30 true).1.error =
      some "Creative not found" ∧
    (run_reverse_pipeline c4RDb2 "cr6" [] [] 30 true).1.error =
      some "No client embedding. Update AI Profile first." ∧
    (run_reverse_pipeline c6Db "cr6" [] [] 30 true).1.error = none := by
  obtain ⟨h1, _, _, _, _⟩ :=
    C4_empty_outcomes c4FDb "nX" c4RDb "ghost" [] [] 30 true
  obtain ⟨_, h2, _, _, _⟩ :=
    C4_empty_outcomes c4FDb2 "n1" c4RDb "ghost" [] [] 30 true
  obtain ⟨_, _, h3, _, _⟩ :=
    C4_empty_outcomes c4FDb "nX" c4RDb "ghost" [] [] 30 true
  obtain ⟨_, _, _, h4, _⟩ :=
    C4_empty_outcomes c4FDb "nX" c4RDb2 "cr6" [] [] 30 true
  obtain ⟨_, _, _, _, h5⟩ :=
    C4_empty_outcomes c4FDb "nX" c6Db "cr6" [] [] 30 true
  have a1 := h1 (by decide)
  have a2 := h2 c4Need (by decide) (by decide)
  have a3 := h3 (by decide)
  have a4 := h4 c9Creative (by decide) (by decide)
  have a5 := h5 c9Creative (by decide) (by decide) (by decide)
  exact ⟨⟨a1.1, a1.2.1⟩, ⟨a2.1, a2.2.1⟩, a3.2.1, a4.2.1, a5.2.1⟩

/-- Counterexample to C4 as stated: for a person id absent from the
database, the reverse pipeline's result carries an error message and the
cache is left untouched (no empty result row is written), contradicting
"a valid empty result ... written to the result cache ... not reported
as an error". -/
theorem C4_counterexample :
    (run_reverse_pipeline c4RDb "ghost" [] [] 30 true).1.error =
      some "Creative not found" ∧
    (run_reverse_pipeline c4RDb "ghost" [] [] 30 true).2.revCache = [] := by
  exact ⟨rfl, rfl⟩

/-! ## Claim C8 -/

theorem backfill_loop_cons_none {σ : Type}
    (runner : σ → String → σ × Option String) (db db2 : σ) (nid : String)
    (rest : List String) (hr : runner db nid = (db2, none)) :
    backfill_loop runner db (nid :: rest) =
      ⟨(backfill_loop runner db2 rest).state,
        (backfill_loop runner db2 rest).generated + 1,
        (backfill_loop runner db2 rest).errors⟩ := by
  rw [backfill_loop, hr]

theorem backfill_loop_cons_some {σ : Type}
    (runner : σ → String → σ × Option String) (db db2 : σ) (nid : String)
    (rest : List String) (e : String) (hr : runner db nid = (db2, some e)) :
    backfill_loop runner db (nid :: rest) =
      ⟨(backfill_loop runner db2 rest).state,
        (backfill_loop runner db2 rest).generated,
        { need_id := nid, error := e } ::
          (backfill_loop runner db2 rest).errors⟩ := by
  rw [backfill_loop, hr]

theorem backfill_loop_append {σ : Type} (runner : σ → String → σ × Option String)
    (xs ys : List String) : ∀ db : σ,
    (backfill_loop runner db (xs ++ ys)).state =
      (backfill_loop runner (backfill_loop runner db xs).state ys).state ∧
    (backfill_loop runner db (xs ++ ys)).generated =
      (backfill_loop runner db xs).generated +
        (backfill_loop runner (backfill_loop runner db xs).state ys).generated ∧
    (backfill_loop runner db (xs ++ ys)).errors =
      (backfill_loop runner db xs).errors ++
        (backfill_loop runner (backfill_loop runner db xs).state ys).errors := by
  induction xs with
  | nil =>
    intro db
    exact ⟨rfl, (Nat.zero_add _).symm, rfl⟩
  | cons x xs ih =>
    intro db
    rcases hr : runner db x with ⟨db2, oe⟩
    rcases ih db2 with ⟨ih1, ih2, ih3⟩
    cases oe with
    | none =>
      rw [List.cons_append, backfill_loop_cons_none runner db db2 x (xs ++ ys) hr,
        backfill_loop_cons_none runner db db2 x xs hr]
      refine ⟨ih1, ?_, ?_⟩
      · show (backfill_loop runner db2 (xs ++ ys)).generated + 1 =
          (backfill_loop runner db2 xs).generated + 1 +
            (backfill_loop runner (backfill_loop runner db2 xs).state ys).generated
        rw [ih2]
        omega
      · show (backfill_loop runner db2 (xs ++ ys)).errors =
          (backfill_loop runner db2 xs).errors ++
            (backfill_loop runner (backfill_loop runner db2 xs).state ys).errors
        exact ih3
    | some e =>
      rw [List.cons_append, backfill_loop_cons_some runner db db2 x (xs ++ ys) e hr,
        backfill_loop_cons_some runner db db2 x xs e hr]
      refine ⟨ih1, ih2, ?_⟩
      show ({ need_id := x, error := e } : BackfillItemError) ::
          (backfill_loop runner db2 (xs ++ ys)).errors =
        ({ need_id := x, error := e } :: (backfill_loop runner db2 xs).errors) ++
          (backfill_loop runner (backfill_loop runner db2 xs).state ys).errors
      rw [ih3]
      rfl

theorem backfill_loop_count {σ : Type} (runner : σ → String → σ × Option String)
    (ids : List String) : ∀ db : σ,
    (backfill_loop runner db ids).generated +
      (backfill_loop runner db ids).errors.length = ids.length := by
  induction ids with
  | nil => intro db; rfl
  | cons nid rest ih =>
    intro db
    rcases hr : runner db nid with ⟨db2, oe⟩
    cases oe with
    | none =>
      rw [backfill_loop_cons_none runner db db2 nid rest hr]
      show (backfill_loop runner db2 rest).generated + 1 +
        (backfill_loop runner db2 rest).errors.length = rest.length + 1
      have := ih db2
      omega
    | some e =>
      rw [backfill_loop_cons_some runner db db2 nid rest e hr]
      show (backfill_loop runner db2 rest).generated +
        (({ need_id := nid, error := e } : BackfillItemError) ::
          (backfill_loop runner db2 rest).errors).length = rest.length + 1
      rw [List.length_cons]
      have := ih db2
      omega

/-- C8: in the batch orchestrator endpoint (`backfill_needs`,
router.py), a failure while processing one item neither stops nor rolls
back the processing of the remaining items — they are processed exactly
as from whatever state the failed item left behind — and every per-item
failure is caught and collected, keyed by need id, into the `errors`
list returned to the caller alongside the success count (`generated`)
and skip count (`skipped` = processed − generated = number of
failures). -/
theorem C8_backfill_errors_collected {σ : Type}
    (runner : σ → String → σ × Option String)
    (countRemaining : σ → Nat) (selectIds : σ → List String) (db : σ)
    (xs ys need_ids : List String) (nid : String) (e : String)
    (ts : List String) (limit : Nat) (reproc : Bool)
    (hfail : runner (backfill_loop runner db xs).state nid =
      ((runner (backfill_loop runner db xs).state nid).1, some e))
    (hrem : countRemaining db ≠ 0) (hsel : selectIds db = need_ids) :
    (backfill_loop runner db (xs ++ nid :: ys)).state =
      (backfill_loop runner
        ((runner (backfill_loop runner db xs).state nid).1) ys).state ∧
    (backfill_loop runner db (xs ++ nid :: ys)).generated =
      (backfill_loop runner db xs).generated +
        (backfill_loop runner
          ((runner (backfill_loop runner db xs).state nid).1) ys).generated ∧
    (backfill_loop runner db (xs ++ nid :: ys)).errors =
      (backfill_loop runner db xs).errors ++
        { need_id := nid, error := e } ::
          (backfill_loop runner
            ((runner (backfill_loop runner db xs).state nid).1) ys).errors ∧
    (backfill_loop runner db need_ids).generated +
      (backfill_loop runner db need_ids).errors.length = need_ids.length ∧
    (backfill_needs runner countRemaining selectIds db ts limit false
        reproc).1.errors = (backfill_loop runner db need_ids).errors ∧
    (backfill_needs runner countRemaining selectIds db ts limit false
        reproc).1.summary.generated =
      (backfill_loop runner db need_ids).generated ∧
    (backfill_needs runner countRemaining selectIds db ts limit false
        reproc).1.summary.skipped =
      (backfill_loop runner db need_ids).errors.length ∧
    (backfill_needs runner countRemaining selectIds db ts limit false
        reproc).1.summary.processed = need_ids.length ∧
    (backfill_needs runner countRemaining selectIds db ts limit false
        reproc).2 = (backfill_loop runner db need_ids).state := by
  have hstep : backfill_loop runner (backfill_loop runner db xs).state
      (nid :: ys) =
      ⟨(backfill_loop runner
          ((runner (backfill_loop runner db xs).state nid).1) ys).state,
        (backfill_loop runner
          ((runner (backfill_loop runner db xs).state nid).1) ys).generated,
        { need_id := nid, error := e } ::
          (backfill_loop runner
            ((runner (backfill_loop runner db xs).state nid).1) ys).errors⟩ := by
    rw [backfill_loop, hfail]
  rcases backfill_loop_append runner xs (nid :: ys) db with ⟨ha1, ha2, ha3⟩
  have hresp : backfill_needs runner countRemaining selectIds db ts limit
      false reproc =
      ({ summary :=
          { processed := need_ids.length,
            generated := (backfill_loop runner db need_ids).generated,
            skipped := need_ids.length -
              (backfill_loop runner db need_ids).generated,
            remaining_before := countRemaining db,
            remaining_after :=
              if reproc then countRemaining db -
                (backfill_loop runner db need_ids).generated
              else countRemaining (backfill_loop runner db need_ids).state,
            tracking_statuses := ts, limit := limit,
            reprocess_existing := reproc },
         needs := need_ids,
         errors := (backfill_loop runner db need_ids).errors },
       (backfill_loop runner db need_ids).state) := by
    unfold backfill_needs
    rw [if_neg hrem, hsel]
    rfl
  have hcount := backfill_loop_count runner need_ids db
  refine ⟨?_, ?_, ?_, hcount, ?_, ?_, ?_, ?_, ?_⟩
  · rw [ha1, hstep]
  · rw [ha2, hstep]
  · rw [ha3, hstep]
  · rw [hresp]
  · rw [hresp]
  · rw [hresp]
    show need_ids.length - (backfill_loop runner db need_ids).generated = _
    omega
  · rw [hresp]
  · rw [hresp]

/-- Concrete runner: item "bad" raises after leaving a partially
committed state behind (+10), other items succeed (+1). -/
def c8Runner : Nat → String → Nat × Option String :=
  fun s nid => if nid = "bad" then (s + 10, some "boom") else (s + 1, none)

theorem C8_backfill_errors_collected_witness :
    (backfill_loop c8Runner 0 (["a"] ++ "bad" :: ["c"])).errors =
      (backfill_loop c8Runner 0 ["a"]).errors ++
        { need_id := "bad", error := "boom" } ::
          (backfill_loop c8Runner
            ((c8Runner (backfill_loop c8Runner 0 ["a"]).state "bad").1)
            ["c"]).errors ∧
    (backfill_needs c8Runner (fun _ => 3) (fun _ => ["a", "bad", "c"]) 0
        ["Active"] 50 false false).1.errors =
      (backfill_loop c8Runner 0 ["a", "bad", "c"]).errors ∧
    (backfill_needs c8Runner (fun _ => 3) (fun _ => ["a", "bad", "c"]) 0
        ["Active"] 50 false false).1.summary.skipped =
      (backfill_loop c8Runner 0 ["a", "bad", "c"]).errors.length ∧
    (backfill_loop c8Runner 0 ["a", "bad", "c"]).generated +
      (backfill_loop c8Runner 0 ["a", "bad", "c"]).errors.length = 3 := by
  obtain ⟨_, _, h3, h4, h5, _, h7, _, _⟩ :=
    C8_backfill_errors_collected c8Runner (fun _ => 3)
      (fun _ => ["a", "bad", "c"]) 0 ["a"] ["c"] ["a", "bad", "c"]
      "bad" "boom" ["Active"] 50 false (by decide) (by decide) rfl
  exact ⟨h3, h5, h7, h4⟩

/-! ## Claim C7 -/

theorem chunksOf_small (bs : ℕ) (x : α) (xs : List α) (h : xs.length ≤ bs) :
    chunksOf (bs + 1) (x :: xs) = [x :: xs] := by
  rw [chunksOf]
  have ht : (x :: xs).take (bs + 1) = x :: xs :=
    List.take_of_length_le (by simpa using Nat.succ_le_succ h)
  have hd : (x :: xs).drop (bs + 1) = [] :=
    List.drop_eq_nil_of_le (by simpa using Nat.succ_le_succ h)
  rw [ht, hd, chunksOf]

/-- C7 (corrected): `embed_texts` retries each chunk up to 5 attempts
with capped exponential backoff (the sleep log of a fully failing chunk
is [1, 2, 4, 8, 8] = min(2^attempt, 8) for attempts 0..4), a response on
a later attempt is used as-is, and exhausted retries produce the
deterministic hash-derived fallback for every text of the chunk; the
fallback is unit-normalized and non-zero whenever its centered byte
vector is non-zero, and a successful vector is unit-normalized whenever
it is non-zero — but an all-zero vector is NOT normalized and is passed
through (see the counterexample), so the "never all-zero" part of the
claim fails. -/
theorem C7_embed_retry_fallback
    (providerA providerB : List String → ℕ → Option (List (List ℝ)))
    (hash : String → List ℕ) (dim : ℕ) (texts : List String) (bs : ℕ)
    (nrm : Bool) (chunk : List String) (vecs : List (List ℝ)) (v : List ℝ)
    (t : String)
    (hfail : ∀ ch a, providerA ch a = none)
    (h0 : providerB chunk 0 = none) (h1 : providerB chunk 1 = some vecs)
    (hv : sumSq v ≠ 0)
    (hc : sumSq (fallbackCentered hash dim t) ≠ 0) :
    (embed_texts providerA hash dim texts bs nrm).out =
        texts.map (fallbackVec hash dim) ∧
    (embed_texts providerA hash dim texts bs nrm).sleeps =
        ((chunksOf bs texts).map (fun _ => [1, 2, 4, 8, 8])).flatten ∧
    embedChunk providerB hash dim nrm chunk =
        ⟨vecs.map (fun w => if nrm then normalizeV w else w), [1]⟩ ∧
    sumSq (normalizeV v) = 1 ∧
    sumSq (fallbackVec hash dim t) = 1 ∧
    ∃ x ∈ fallbackVec hash dim t, x ≠ 0 := by
  have h5 : sumSq (fallbackVec hash dim t) = 1 := sumSq_fallbackVec hash dim t hc
  refine ⟨(embed_texts_all_fail providerA hash dim texts bs nrm hfail).1,
    (embed_texts_all_fail providerA hash dim texts bs nrm hfail).2,
    embedChunk_second_attempt providerB hash dim nrm chunk vecs h0 h1,
    sumSq_normalizeV v hv, h5, ?_⟩
  by_contra hall
  push_neg at hall
  have hz := sumSq_eq_zero_of_all_zero _ hall
  rw [h5] at hz
  exact one_ne_zero hz

def c7FailProvider : List String → ℕ → Option (List (List ℝ)) := fun _ _ => none

def c7RetryProvider : List String → ℕ → Option (List (List ℝ)) :=
  fun _ a => if a = 0 then none else some [[3, 4]]

def c7Hash : String → List ℕ := fun _ => [0, 2]

theorem C7_embed_retry_fallback_witness :
    (embed_texts c7FailProvider c7Hash 2 ["a", "b"] 96 true).out =
        ["a", "b"].map (fallbackVec c7Hash 2) ∧
    embedChunk c7RetryProvider c7Hash 2 true ["a"] =
        ⟨[[3, 4]].map (fun w => if true then normalizeV w else w), [1]⟩ ∧
    sumSq (normalizeV [3, 4]) = 1 ∧
    sumSq (fallbackVec c7Hash 2 "a") = 1 := by
  have hc : sumSq (fallbackCentered c7Hash 2 "a") ≠ 0 := by
    have hcent : fallbackCentered c7Hash 2 "a" = [-1, 1] := by
      unfold fallbackCentered c7Hash
      norm_num [List.replicate, List.flatten, sumSq]
    rw [hcent]
    norm_num [sumSq]
  obtain ⟨w1, _, w3, w4, w5, _⟩ :=
    C7_embed_retry_fallback c7FailProvider c7RetryProvider c7Hash 2
      ["a", "b"] 96 true ["a"] [[3, 4]] [3, 4] "a"
      (fun ch a => rfl) rfl rfl (by norm_num [sumSq]) hc
  exact ⟨w1, w3, w4, w5⟩

def c7ZeroProvider : List String → ℕ → Option (List (List ℝ)) :=
  fun _ _ => some [[0, 0]]

/-- Counterexample to C7 as stated: a provider response consisting of an
all-zero vector passes through `_normalize` unchanged (its norm is 0, so
the guard returns the array as-is) and `embed_texts` returns an all-zero
vector — contradicting "no all-zero ... vector is ever returned". -/
theorem C7_counterexample :
    (embed_texts c7ZeroProvider c7Hash 2 ["a"] 96 true).out = [[0, 0]] ∧
    ∀ x ∈ [(0 : ℝ), 0], x = 0 := by
  constructor
  · have hchunks : chunksOf 96 ["a"] = [["a"]] :=
      chunksOf_small 95 "a" [] (by simp)
    have hnv : normalizeV [(0 : ℝ), 0] = [0, 0] := by
      unfold normalizeV norm2
      norm_num [sumSq, Real.sqrt_zero]
    unfold embed_texts
    rw [hchunks, List.foldr_cons, List.foldr_nil]
    unfold embedChunk
    rw [embedChunkGo]
    show (embedCombine
      ⟨[[(0 : ℝ), 0]].map (fun w => if true then normalizeV w else w), []⟩
      ⟨[], []⟩).out = [[0, 0]]
    rw [embedCombine_out]
    simp [hnv]
  · intro x hx
    rcases List.mem_cons.mp hx with h | h
    · exact h
    · simpa using h

end TalentPortal
